import Mathlib

/-!
Verification of the session state machine of a two-player-versus-dealer
blackjack server (`server.js`).  The definitions below are a shallow
embedding of the game logic of the source: JS numbers become `Nat`,
JS arrays become `List`, fallible paths (JS exceptions, `undefined`
dereferences, `NaN`) become `Option`, and the per-room session object
becomes the `Game` structure.  The transport layer (socket.io) is out of
scope; emissions are modelled as returned values.
-/

namespace Blackjack

/-- A card exactly as the source builds it: `{ rank, suit }`, both strings. -/
structure Card where
  rank : String
  suit : String
deriving DecidableEq, Repr

/-- The four suits, in source order (`createDeck`). -/
def suits : List String := [r"Hearts", r"Diamonds", r"Clubs", r"Spades"]

/-- The thirteen ranks, in source order (`createDeck`). -/
def ranks : List String := [r"2", r"3", r"4", r"5", r"6", r"7", r"8", r"9", r"10", r"J", r"Q", r"K", r"A"]

/-- `createDeck()`: one card per (suit, rank) pair, suit-major order. -/
def createDeck : List Card :=
  suits.flatMap (fun suit => ranks.map (fun rank => { rank := rank, suit := suit }))

/-- `deck.pop()`: removes and returns the LAST element of the array.
`none` models popping an empty array (JS yields `undefined`, and every
use of the popped card in the source then throws). -/
def popCard (deck : List Card) : Option (Card × List Card) :=
  match deck.getLast? with
  | none => none
  | some c => some (c, deck.dropLast)

/-- The swap `[deck[i], deck[j]] = [deck[j], deck[i]]` in `shuffleDeck`.
Out-of-range indices leave the list unchanged (never happens in the loop). -/
def swapAt (l : List Card) (i j : Nat) : List Card :=
  match l.get? i, l.get? j with
  | some a, some b => (l.set i b).set j a
  | _, _ => l

/-- The `for (let i = deck.length - 1; i > 0; i--)` loop of `shuffleDeck`.
The argument `i` is the loop counter; `rand i` models the value
`Math.floor(Math.random() * (i + 1))`, reduced into range `0..i` by `% (i+1)`. -/
def fyLoop (rand : Nat → Nat) : Nat → List Card → List Card
  | 0, l => l
  | i + 1, l => fyLoop rand i (swapAt l (i + 1) (rand (i + 1) % (i + 2)))

/-- `shuffleDeck(deck)`: Fisher-Yates, consuming the random source `rand`. -/
def shuffleDeck (deck : List Card) (rand : Nat → Nat) : List Card :=
  fyLoop rand (deck.length - 1) deck

/-- `parseInt(s)` for base 10: parses the longest leading run of decimal
digits; an empty run is `NaN`, modelled as `none`.  (Defined over the
character list so that it evaluates inside the kernel.) -/
def parseIntStr (s : String) : Option Nat :=
  match s.data.takeWhile (fun c => c.isDigit) with
  | [] => none
  | ds => some (ds.foldl (fun n c => n * 10 + (c.toNat - 48)) 0)

/-- `getCardValue(card, currentTotal)`.  `parseInt` of a non-numeric rank
yields `NaN` in JS, modelled as `none`; the ranks produced by `createDeck`
never hit that case. -/
def getCardValue (card : Card) (currentTotal : Nat) : Option Nat :=
  if card.rank = "A" then
    some (if currentTotal + 11 > 21 then 1 else 11)
  else if card.rank = "K" ∨ card.rank = "Q" ∨ card.rank = "J" then
    some 10
  else
    parseIntStr card.rank

/-- The `for (const card of hand)` loop of `calculateHandTotal`,
accumulating `total` and `numAces`. -/
def scoreFold : List Card → Nat → Nat → Option (Nat × Nat)
  | [], total, numAces => some (total, numAces)
  | card :: rest, total, numAces =>
    let numAces' := if card.rank = "A" then numAces + 1 else numAces
    match getCardValue card total with
    | none => none
    | some v => scoreFold rest (total + v) numAces'

/-- The `while (total > 21 && numAces > 0) { total -= 10; numAces--; }`
loop of `calculateHandTotal`. -/
def adjustAces : Nat → Nat → Nat
  | total, 0 => total
  | total, numAces + 1 => if total > 21 then adjustAces (total - 10) numAces else total

/-- `calculateHandTotal(hand)`. -/
def calculateHandTotal (hand : List Card) : Option Nat :=
  match scoreFold hand 0 0 with
  | none => none
  | some (total, numAces) => some (adjustAces total numAces)

/-! ### Specification-side scoring

The spec speaks of "assignments of each Ace to value 1 or 11".  The
following definitions formalise that notion; they are the comparison
yardstick for the claims about `calculateHandTotal`, not an embedding of
any source function. -/

/-- A card's fixed blackjack value with every Ace counted as 1. -/
def baseValue (card : Card) : Option Nat :=
  if card.rank = "A" then some 1
  else if card.rank = "K" ∨ card.rank = "Q" ∨ card.rank = "J" then some 10
  else parseIntStr card.rank

/-- Total of a hand under an Ace assignment: the `i`-th Ace (left to
right) counts 11 when `f i` is true and 1 otherwise; all other cards take
their fixed value. -/
def assignTotalAux : List Card → (Nat → Bool) → Nat → Option Nat
  | [], _, _ => some 0
  | card :: rest, f, i =>
    if card.rank = "A" then
      match assignTotalAux rest f (i + 1) with
      | none => none
      | some t => some ((if f i then 11 else 1) + t)
    else
      match baseValue card, assignTotalAux rest f i with
      | some v, some t => some (v + t)
      | _, _ => none

/-- Total of a hand under an Ace assignment `f`. -/
def assignTotal (hand : List Card) (f : Nat → Bool) : Option Nat :=
  assignTotalAux hand f 0

/-- The all-Aces-as-1 (minimal) total of a hand. -/
def minTotal (hand : List Card) : Option Nat :=
  assignTotal hand (fun _ => false)

/-- A card whose rank is one of the thirteen standard ranks. -/
def StdCard (card : Card) : Prop := card.rank ∈ ranks

instance (card : Card) : Decidable (StdCard card) := by
  unfold StdCard; infer_instance

/-- Number of Aces in a hand. -/
def countAces (hand : List Card) : Nat :=
  (hand.filter (fun card => card.rank = "A")).length

/-- Sum of the fixed (all-Aces-as-1) values of a hand. -/
def sumBase : List Card → Option Nat
  | [] => some 0
  | card :: rest =>
    match baseValue card, sumBase rest with
    | some v, some t => some (v + t)
    | _, _ => none

lemma countAces_cons (c : Card) (rest : List Card) :
    countAces (c :: rest) = (if c.rank = "A" then 1 else 0) + countAces rest := by
  unfold countAces
  by_cases h : c.rank = "A" <;> simp [List.filter_cons, h, Nat.add_comm]

lemma assignTotalAux_false (hand : List Card) :
    ∀ i, assignTotalAux hand (fun _ => false) i = sumBase hand := by
  induction hand with
  | nil => intro i; rfl
  | cons c rest ih =>
    intro i
    unfold assignTotalAux sumBase
    by_cases h : c.rank = "A"
    · have hb : baseValue c = some 1 := by unfold baseValue; rw [if_pos h]
      rw [if_pos h, ih, hb]
      cases sumBase rest <;> simp
    · rw [if_neg h, ih]

/-- Every Ace assignment totals at least the all-Aces-as-1 total. -/
lemma assignTotalAux_ge (hand : List Card) :
    ∀ (f : Nat → Bool) (i t : Nat), assignTotalAux hand f i = some t →
      ∃ m, sumBase hand = some m ∧ m ≤ t := by
  induction hand with
  | nil =>
    intro f i t h
    simp only [assignTotalAux, Option.some.injEq] at h
    exact ⟨0, rfl, by omega⟩
  | cons c rest ih =>
    intro f i t h
    unfold assignTotalAux at h
    by_cases hA : c.rank = "A"
    · rw [if_pos hA] at h
      cases hrest : assignTotalAux rest f (i + 1) with
      | none => rw [hrest] at h; cases h
      | some t' =>
        rw [hrest] at h
        have hb : baseValue c = some 1 := by unfold baseValue; rw [if_pos hA]
        obtain ⟨m, hm, hmle⟩ := ih f (i + 1) t' hrest
        refine ⟨1 + m, by unfold sumBase; rw [hb, hm], ?_⟩
        have ht : (if f i then 11 else 1) + t' = t := by
          simpa using h
        have h1 : 1 ≤ (if f i then 11 else 1) := by cases f i <;> simp
        omega
    · rw [if_neg hA] at h
      cases hb : baseValue c with
      | none => rw [hb] at h; cases h
      | some v =>
        cases hrest : assignTotalAux rest f i with
        | none => rw [hb, hrest] at h; cases h
        | some t' =>
          rw [hb, hrest] at h
          have ht : v + t' = t := by simpa using h
          obtain ⟨m, hm, hmle⟩ := ih f i t' hrest
          exact ⟨v + m, by unfold sumBase; rw [hb, hm], by omega⟩

/-- For a standard rank, `getCardValue` is defined and exceeds the fixed
value by at most 10, and only on an Ace. -/
lemma value_le (c : Card) (h : StdCard c) (t : Nat) :
    ∃ v b, getCardValue c t = some v ∧ baseValue c = some b ∧
      v ≤ b + (if c.rank = "A" then 10 else 0) := by
  unfold StdCard ranks at h
  simp only [List.mem_cons, List.not_mem_nil, or_false] at h
  unfold getCardValue baseValue
  rcases h with h | h | h | h | h | h | h | h | h | h | h | h | h <;> rw [h]
  · exact ⟨2, 2, rfl, rfl, by decide⟩
  · exact ⟨3, 3, rfl, rfl, by decide⟩
  · exact ⟨4, 4, rfl, rfl, by decide⟩
  · exact ⟨5, 5, rfl, rfl, by decide⟩
  · exact ⟨6, 6, rfl, rfl, by decide⟩
  · exact ⟨7, 7, rfl, rfl, by decide⟩
  · exact ⟨8, 8, rfl, rfl, by decide⟩
  · exact ⟨9, 9, rfl, rfl, by decide⟩
  · exact ⟨10, 10, rfl, rfl, by decide⟩
  · exact ⟨10, 10, rfl, rfl, by decide⟩
  · exact ⟨10, 10, rfl, rfl, by decide⟩
  · exact ⟨10, 10, rfl, rfl, by decide⟩
  · exact ⟨if t + 11 > 21 then 1 else 11, 1, rfl, rfl, by split <;> decide⟩

/-- The accumulating fold of `calculateHandTotal` is defined on standard
hands, counts every Ace, and overshoots the minimal total by at most 10
per Ace. -/
lemma scoreFold_le (hand : List Card) (hstd : ∀ c ∈ hand, StdCard c) :
    ∀ t0 n0, ∃ T m, scoreFold hand t0 n0 = some (T, n0 + countAces hand) ∧
      sumBase hand = some m ∧ T ≤ t0 + m + 10 * countAces hand := by
  induction hand with
  | nil =>
    intro t0 n0
    exact ⟨t0, 0, by simp [scoreFold, countAces], rfl, by omega⟩
  | cons c rest ih =>
    intro t0 n0
    have hc := hstd c (by simp)
    have hrest : ∀ x ∈ rest, StdCard x := fun x hx => hstd x (by simp [hx])
    obtain ⟨v, b, hv, hb, hvb⟩ := value_le c hc t0
    obtain ⟨T, m, hT, hm, hTle⟩ :=
      ih hrest (t0 + v) (if c.rank = "A" then n0 + 1 else n0)
    have hstep : scoreFold (c :: rest) t0 n0 =
        scoreFold rest (t0 + v) (if c.rank = "A" then n0 + 1 else n0) := by
      simp only [scoreFold]
      rw [hv]
    refine ⟨T, b + m, ?_, ?_, ?_⟩
    · rw [hstep, hT, countAces_cons]
      have : (if c.rank = "A" then n0 + 1 else n0) + countAces rest =
          n0 + ((if c.rank = "A" then 1 else 0) + countAces rest) := by
        by_cases hA : c.rank = "A"
        · simp only [if_pos hA]; omega
        · simp only [if_neg hA]; omega
      rw [this]
    · unfold sumBase; rw [hb, hm]
    · rw [countAces_cons]
      by_cases hA : c.rank = "A"
      · simp only [if_pos hA] at hvb ⊢; omega
      · simp only [if_neg hA] at hvb ⊢; omega

/-- The soft-to-hard demotion loop lands at or below 21 whenever enough
10s can be subtracted. -/
lemma adjustAces_le : ∀ (n T : Nat), T ≤ 21 + 10 * n → adjustAces T n ≤ 21 := by
  intro n
  induction n with
  | zero => intro T h; simpa [adjustAces] using h
  | succ k ih =>
    intro T h
    unfold adjustAces
    split
    · exact ih (T - 10) (by omega)
    · omega

/-- C2: if some assignment of each Ace to 1 or 11 keeps the hand at or
under 21, `calculateHandTotal` reports a total at or under 21 (no hand
with a valid non-busting Ace assignment is reported busted). -/
theorem c2_no_false_bust (hand : List Card) (f : Nat → Bool) (t : Nat)
    (hstd : ∀ c ∈ hand, StdCard c)
    (ha : assignTotal hand f = some t) (hle : t ≤ 21) :
    ∃ r, calculateHandTotal hand = some r ∧ r ≤ 21 := by
  obtain ⟨m, hm, hmt⟩ := assignTotalAux_ge hand f 0 t ha
  obtain ⟨T, m', hT, hm', hTle⟩ := scoreFold_le hand hstd 0 0
  rw [hm] at hm'
  injection hm' with hmm
  subst hmm
  refine ⟨adjustAces T (countAces hand), ?_, ?_⟩
  · unfold calculateHandTotal
    rw [hT]
    simp
  · exact adjustAces_le (countAces hand) T (by omega)

/-- The hand King, King, Five, Ace: minimal total 26 (a hard bust), on
which the demotion loop subtracts 10 for an Ace that was already counted
as 1. -/
def kk5aHand : List Card :=
  [{ rank := "K", suit := "Spades" }, { rank := "K", suit := "Hearts" },
   { rank := "5", suit := "Diamonds" }, { rank := "A", suit := "Clubs" }]

/-- C1: `calculateHandTotal` does not implement standard blackjack
scoring: on King, King, Five, Ace the minimal (all-Aces-as-1) total is
26, so the standard score is 26 (a bust), but the code returns 16 —
its demotion loop subtracts 10 for an Ace that was counted as 1 during
the fold, contradicting the claimed soft-to-hard rule. -/
theorem c1_ace_demotion_eval :
    calculateHandTotal kk5aHand = some 16 ∧ minTotal kk5aHand = some 26 :=
  ⟨rfl, rfl⟩

/-- Ace and King: a natural blackjack, used as the concrete instance of
the no-false-bust property. -/
def akHand : List Card :=
  [{ rank := "A", suit := "Spades" }, { rank := "K", suit := "Hearts" }]

/-- Witness for C2 at the concrete hand Ace-King with the Ace assigned 11. -/
theorem c2_no_false_bust_witness :
    (∀ c ∈ akHand, StdCard c) ∧ assignTotal akHand (fun _ => true) = some 21 ∧ 21 ≤ 21 ∧
      ∃ r, calculateHandTotal akHand = some r ∧ r ≤ 21 :=
  ⟨by decide, rfl, by decide,
    c2_no_false_bust akHand (fun _ => true) 21 (by decide) rfl (by decide)⟩

/-! ## Session state

The per-room game object created by `initializeGame`.  The JS object
stores the two player states under dynamic keys (`[player1Id]`,
`[player2Id]`); this is modelled by the partial map `pstates`
(`none` = the object has no such property).  The keys `deck`, `players`,
`dealer`, `currentTurn`, `turnOrder`, `turnIndex`, `message` are ordinary
fields.  `gameOver`, `gameOverMessage`, `gameOverType` are absent until
`determineGameOutcome` sets them; readers coalesce that absence to
`false` / `''` (`game.gameOver || false`), so they are modelled with
those defaults. -/

/-- Per-player state, exactly the fields `initializeGame` creates.  Note
there is NO `id` field: `determineGameOutcome`'s accesses to `player.id`
read an absent property. -/
structure PlayerState where
  hand : List Card
  score : Nat
  isStanding : Bool
  isBusted : Bool
  chips : Nat
deriving DecidableEq, Repr

/-- Dealer state, exactly the fields `initializeGame` creates. -/
structure DealerState where
  hand : List Card
  score : Nat
  isBusted : Bool
deriving DecidableEq, Repr

/-- A session (one entry of `activeGames`). -/
structure Game where
  deck : List Card
  players : List String
  pstates : String → Option PlayerState
  dealer : DealerState
  currentTurn : String
  turnOrder : List String
  turnIndex : Nat
  message : String
  gameOver : Bool
  gameOverMessage : String
  gameOverType : String

/-- Writing the player state stored under the dynamic key `id`. -/
def updPS (f : String → Option PlayerState) (id : String) (st : PlayerState) :
    String → Option PlayerState :=
  fun x => if x = id then some st else f x

/-- The JS property read `player.id` on a state `initializeGame` built:
the property was never assigned, so the read yields `undefined`. -/
def PlayerState.idField (_p : PlayerState) : Option String := none

/-- JS template-literal stringification: `undefined` interpolates as the
text `undefined`. -/
def jsShow : Option String → String
  | none => "undefined"
  | some s => s

/-- `initializeGame(player1Id, player2Id)`: shuffle a fresh deck, deal
two cards to each player and the dealer in the source's exact pop order,
and build the session object.  If `player1Id = player2Id` the second
dynamic key overwrites the first, which the `pstates` function mirrors
by testing `player2Id` first. -/
def initializeGame (player1Id player2Id : String) (rand : Nat → Nat) : Option Game := do
  let deck0 := shuffleDeck createDeck rand
  let (c1, deck1) ← popCard deck0
  let (c2, deck2) ← popCard deck1
  let (c3, deck3) ← popCard deck2
  let (c4, deck4) ← popCard deck3
  let (c5, deck5) ← popCard deck4
  let (c6, deck6) ← popCard deck5
  let player1Hand := [c1, c4]
  let player2Hand := [c2, c5]
  let dealerHand := [c3, c6]
  let s1 ← calculateHandTotal player1Hand
  let s2 ← calculateHandTotal player2Hand
  let sd ← calculateHandTotal dealerHand
  pure
    { deck := deck6
      players := [player1Id, player2Id]
      pstates := fun id =>
        if id = player2Id then
          some { hand := player2Hand, score := s2, isStanding := false,
                 isBusted := false, chips := 1000 }
        else if id = player1Id then
          some { hand := player1Hand, score := s1, isStanding := false,
                 isBusted := false, chips := 1000 }
        else none
      dealer := { hand := dealerHand, score := sd, isBusted := false }
      currentTurn := player1Id
      turnOrder := [player1Id, player2Id, "dealer"]
      turnIndex := 0
      message := "Game started! Player 1\x27s turn."
      gameOver := false
      gameOverMessage := ""
      gameOverType := "" }

/-! ## View projector (`getGameStateForPlayer`) -/

/-- The `playerState` part of a projected view. -/
structure ViewPlayer where
  id : String
  hand : List Card
  score : Nat
  isStanding : Bool
  isBusted : Bool
  chips : Nat
deriving DecidableEq, Repr

/-- The `opponentState` part of a projected view. -/
structure ViewOpponent where
  id : String
  hand : List Card
  score : Nat
  hideFirstCard : Bool
  isStanding : Bool
  isBusted : Bool
deriving DecidableEq, Repr

/-- The `dealerState` part of a projected view.  `score` is
`getCardValue(dealer.hand[0], 0)`, an `Option` because `getCardValue` of
the `'?'` placeholder would be `NaN` (never happens: it is applied to the
dealer's real first card). -/
structure ViewDealer where
  hand : List Card
  score : Option Nat
  hideSecondCard : Bool
deriving DecidableEq, Repr

/-- A projected per-recipient view of a session. -/
structure GameView where
  playerState : ViewPlayer
  opponentState : ViewOpponent
  dealerState : ViewDealer
  currentTurn : String
  message : String
  gameOver : Bool
  gameOverMessage : String
  gameOverType : String
deriving DecidableEq, Repr

/-- `getGameStateForPlayer(game, playerId)`.  `none` models the JS
exceptions on property access of `undefined` (unknown recipient key,
opponent lookup failure, empty dealer hand). -/
def getGameStateForPlayer (game : Game) (playerId : String) : Option GameView := do
  let currentPlayer ← game.pstates playerId
  let opponentId ← game.players.find? (fun id => id ≠ playerId)
  let opponentPlayer ← game.pstates opponentId
  let dealerFirst ← game.dealer.hand.get? 0
  pure
    { playerState :=
        { id := playerId
          hand := currentPlayer.hand
          score := currentPlayer.score
          isStanding := currentPlayer.isStanding
          isBusted := currentPlayer.isBusted
          chips := currentPlayer.chips }
      opponentState :=
        { id := opponentId
          hand := opponentPlayer.hand
          score := opponentPlayer.score
          hideFirstCard := false
          isStanding := opponentPlayer.isStanding
          isBusted := opponentPlayer.isBusted }
      dealerState :=
        { hand := [dealerFirst, { rank := "?", suit := "?" }]
          score := getCardValue dealerFirst 0
          hideSecondCard := true }
      currentTurn := game.currentTurn
      message := game.message
      gameOver := game.gameOver
      gameOverMessage := game.gameOverMessage
      gameOverType := game.gameOverType }

/-! ## Turn engine -/

/-- The skip loop of `advanceTurn`: from index `idx`, move forward
circularly past players who are busted or standing, until the dealer
slot or an eligible player.  `fuel` bounds the loop; `none` models
either a JS crash (`game[undefined]`) or non-termination, neither of
which occurs for the sessions this server builds. -/
def findNextIdx (game : Game) : Nat → Nat → Option Nat
  | 0, _ => none
  | fuel + 1, idx =>
    match game.turnOrder.get? idx with
    | none => none
    | some pid =>
      if pid = "dealer" then some idx
      else
        match game.pstates pid with
        | none => none
        | some ps =>
          if ps.isBusted || ps.isStanding then
            findNextIdx game fuel ((idx + 1) % game.turnOrder.length)
          else some idx

/-- The `while (dealer.score < 17)` loop of `handleDealerTurn`: pop a
card, append it to the dealer's hand, recompute the score.  `fuel` is
sized by the caller so that it never runs out before the deck does. -/
def dealerLoop : Nat → Game → Option Game
  | 0, _ => none
  | fuel + 1, game =>
    if game.dealer.score < 17 then do
      let (newCard, deck') ← popCard game.deck
      let newHand := game.dealer.hand ++ [newCard]
      let newScore ← calculateHandTotal newHand
      dealerLoop fuel
        { game with
            deck := deck'
            dealer := { game.dealer with hand := newHand, score := newScore }
            message := game.message ++ " Dealer hits and gets " ++ newCard.rank ++
              " of " ++ newCard.suit ++ "." }
    else some game

/-- `handleDealerTurn(gameRoomId)`: reveal the hole card by recomputing
the dealer's score over the full hand, hit to 17, then set the bust flag
and closing message. -/
def handleDealerTurn (game : Game) : Option Game := do
  let revealed ← calculateHandTotal game.dealer.hand
  let game := { game with
    message := "Dealer\x27s turn..."
    dealer := { game.dealer with score := revealed } }
  let game ← dealerLoop (game.deck.length + 1) game
  if game.dealer.score > 21 then
    pure { game with
      dealer := { game.dealer with isBusted := true }
      message := game.message ++ " Dealer busts!" }
  else
    pure { game with message := game.message ++ " Dealer stands." }

/-- `determineGameOutcome(gameRoomId)`: build the round-over message and
the (shared, last-writer-wins) outcome type, and set the game-over
fields.  `player1.id` / `player2.id` are reads of a property that was
never created; they stringify as `undefined`. -/
def determineGameOutcome (game : Game) : Option Game := do
  let p1id ← game.players.get? 0
  let p2id ← game.players.get? 1
  let player1 ← game.pstates p1id
  let player2 ← game.pstates p2id
  let dealer := game.dealer
  let message := "Round over! "
  let ty := "info"
  let (message, ty) :=
    if player1.isBusted then
      (message ++ jsShow player1.idField ++ " busted. ", ty)
    else if dealer.isBusted || player1.score > dealer.score then
      (message ++ jsShow player1.idField ++ " wins! ", "win")
    else if player1.score < dealer.score then
      (message ++ jsShow player1.idField ++ " loses. ", "lose")
    else
      (message ++ jsShow player1.idField ++ " pushes. ", ty)
  let (message, ty) :=
    if player2.isBusted then
      (message ++ jsShow player2.idField ++ " busted. ", ty)
    else if dealer.isBusted || player2.score > dealer.score then
      (message ++ jsShow player2.idField ++ " wins! ", "win")
    else if player2.score < dealer.score then
      (message ++ jsShow player2.idField ++ " loses. ", "lose")
    else
      (message ++ jsShow player2.idField ++ " pushes. ", ty)
  pure { game with gameOver := true, gameOverMessage := message, gameOverType := ty }

/-- `advanceTurn(gameRoomId)`: step the index forward with the skip
loop; landing on the dealer slot runs the dealer and resolves the
outcome, otherwise it is the next player's turn. -/
def advanceTurn (game : Game) : Option Game := do
  let nextTurnIndex ← findNextIdx game (game.turnOrder.length + 1)
    ((game.turnIndex + 1) % game.turnOrder.length)
  let nextPlayerId ← game.turnOrder.get? nextTurnIndex
  let game := { game with turnIndex := nextTurnIndex, currentTurn := nextPlayerId }
  if nextPlayerId = "dealer" then
    let game ← handleDealerTurn game
    determineGameOutcome game
  else
    pure { game with message := "It\x27s " ++ nextPlayerId ++ "\x27s turn." }

/-- `handleHit(gameRoomId, playerId)`: guard, pop a card, append,
recompute the score, and on a bust mark the player and advance the
turn.  `some game` unchanged models the silent-return guard; `none`
models a JS crash (unknown player key while it is somehow their turn, or
an empty deck). -/
def handleHit (game : Game) (playerId : String) : Option Game :=
  if game.currentTurn ≠ playerId then some game
  else
    match game.pstates playerId with
    | none => none
    | some player =>
      if player.isStanding || player.isBusted then some game
      else do
        let (newCard, deck') ← popCard game.deck
        let newHand := player.hand ++ [newCard]
        let newScore ← calculateHandTotal newHand
        let player' := { player with hand := newHand, score := newScore }
        let game' := { game with deck := deck', pstates := updPS game.pstates playerId player' }
        if newScore > 21 then
          advanceTurn
            { game' with
                pstates := updPS game'.pstates playerId { player' with isBusted := true }
                message := playerId ++ " busted!" }
        else
          some { game' with
            message := playerId ++ " hits and gets " ++ newCard.rank ++ " of " ++
              newCard.suit ++ "." }

/-- `handleStand(gameRoomId, playerId)`: guard, set the standing flag,
advance the turn. -/
def handleStand (game : Game) (playerId : String) : Option Game :=
  if game.currentTurn ≠ playerId then some game
  else
    match game.pstates playerId with
    | none => none
    | some player =>
      if player.isStanding || player.isBusted then some game
      else
        advanceTurn
          { game with
              pstates := updPS game.pstates playerId { player with isStanding := true }
              message := playerId ++ " stands." }

/-- The `pvpGameOver` payload the `playerAction` handler emits to the
whole room once `game.gameOver` holds: the shared message and type, and
a single `finalGame` view built for `game.players[0]` (sent identically
to both participants). -/
def pvpGameOverPayload (game : Game) : Option (String × String × GameView) := do
  let firstId ← game.players.get? 0
  let finalGame ← getGameStateForPlayer game firstId
  pure (game.gameOverMessage, game.gameOverType, finalGame)

/-! ## Server-level state: matchmaking queue, session store, disconnect -/

/-- One `pvpGameOver` delivery made by the disconnect handler. -/
structure Emission where
  target : String
  message : String
  ty : String
deriving DecidableEq

/-- Process-wide mutable state: `matchmakingQueue` and `activeGames`.
The JS object `activeGames` is modelled as an association list in key
insertion order, which is also `for...in` iteration order. -/
structure ServerState where
  matchmakingQueue : List String
  activeGames : List (String × Game)

/-- The room scan of the `disconnect` handler: find the FIRST room whose
`players` contains the leaver, emit `pvpGameOver` to the remaining
player (if `find` produces one), delete the room, and `break`. -/
def disconnectScan : List (String × Game) → String → List (String × Game) × List Emission
  | [], _ => ([], [])
  | (roomId, game) :: rest, sid =>
    if sid ∈ game.players then
      (rest,
        match game.players.find? (fun id => id ≠ sid) with
        | some remainingPlayerId =>
          [{ target := remainingPlayerId, message := "Opponent disconnected. You win!",
             ty := "win" }]
        | none => [])
    else
      let (rest', ems) := disconnectScan rest sid
      ((roomId, game) :: rest', ems)

/-- The `disconnect` handler: splice the leaver out of the matchmaking
queue (first occurrence, via `indexOf`), then run the room scan. -/
def disconnect (s : ServerState) (sid : String) : ServerState × List Emission :=
  let queue' := s.matchmakingQueue.erase sid
  let (games', ems) := disconnectScan s.activeGames sid
  ({ matchmakingQueue := queue', activeGames := games' }, ems)

/-! ## C8: invalid actions are silent no-ops -/

/-- C8: a `hit` or `stand` by an actor who does not hold the turn, or
whose hand is already standing or busted, leaves the session object
completely unchanged and raises no exception. -/
theorem c8_invalid_action_noop (g : Game) (pid : String)
    (h : g.currentTurn ≠ pid ∨
      ∃ st, g.pstates pid = some st ∧ (st.isStanding = true ∨ st.isBusted = true)) :
    handleHit g pid = some g ∧ handleStand g pid = some g := by
  by_cases hc : g.currentTurn = pid
  · rcases h with h | ⟨st, hst, hflag⟩
    · exact absurd hc h
    · have hcond : (st.isStanding || st.isBusted) = true := by
        rcases hflag with hflag | hflag <;> simp [hflag]
      constructor
      · unfold handleHit
        rw [if_neg (not_not_intro hc), hst]
        simp [hcond]
      · unfold handleStand
        rw [if_neg (not_not_intro hc), hst]
        simp [hcond]
  · constructor
    · unfold handleHit
      rw [if_pos hc]
    · unfold handleStand
      rw [if_pos hc]

/-- Concrete player ids for the witness instances. -/
def pOne : String := "P1"

/-- Second concrete player id. -/
def pTwo : String := "P2"

/-- A fresh (all-flags-false) player state for witness sessions. -/
def wFresh : PlayerState :=
  { hand := [{ rank := "9", suit := "Clubs" }, { rank := "8", suit := "Clubs" }],
    score := 17, isStanding := false, isBusted := false, chips := 1000 }

/-- A witness session where it is `pTwo`'s turn. -/
def wGameA : Game :=
  { deck := [{ rank := "3", suit := "Diamonds" }]
    players := [pOne, pTwo]
    pstates := fun id => if id = pTwo then some wFresh else if id = pOne then some wFresh else none
    dealer := { hand := [{ rank := "K", suit := "Spades" }, { rank := "9", suit := "Hearts" }],
                score := 19, isBusted := false }
    currentTurn := pTwo
    turnOrder := [pOne, pTwo, "dealer"]
    turnIndex := 1
    message := ""
    gameOver := false
    gameOverMessage := ""
    gameOverType := "" }

/-- Witness for C8: `pOne` acts while it is `pTwo`'s turn; both actions
return the session unchanged. -/
theorem c8_invalid_action_noop_witness :
    wGameA.currentTurn ≠ pOne ∧
      (handleHit wGameA pOne = some wGameA ∧ handleStand wGameA pOne = some wGameA) :=
  ⟨by decide, c8_invalid_action_noop wGameA pOne (Or.inl (by decide))⟩

/-! ## C4: hole-card masking of in-progress projections -/

/-- C4: any projection the server can build shows a dealer hand of the
first card plus the `'?'` placeholder and a dealer score computed from
the first card alone; consequently two sessions that differ only in the
dealer's hole card (and the total stored from it) project identically. -/
theorem c4_projection_masking (g : Game) (pid : String) (view : GameView)
    (_hover : g.gameOver = false)
    (hview : getGameStateForPlayer g pid = some view) :
    ∃ d0, g.dealer.hand.get? 0 = some d0 ∧
      view.dealerState.hand = [d0, { rank := "?", suit := "?" }] ∧
      view.dealerState.score = getCardValue d0 0 ∧
      ∀ (tail tail' : List Card) (s s' : Nat) (b : Bool),
        getGameStateForPlayer
          { g with dealer := { hand := d0 :: tail, score := s, isBusted := b } } pid =
        getGameStateForPlayer
          { g with dealer := { hand := d0 :: tail', score := s', isBusted := b } } pid := by
  unfold getGameStateForPlayer at hview
  simp only [Option.bind_eq_bind, Option.bind_eq_some, Option.pure_def,
    Option.some.injEq] at hview
  obtain ⟨cp, hcp, oppId, hopp, op, hop, d0, hd0, hv⟩ := hview
  subst hv
  refine ⟨d0, hd0, rfl, rfl, ?_⟩
  intro tail tail' s s' b
  unfold getGameStateForPlayer
  simp [hcp, hopp, hop]

/-- An arbitrary view used only as a fallback when totalising concrete
projections. -/
def junkView : GameView :=
  { playerState :=
      { id := "", hand := [], score := 0, isStanding := false, isBusted := false, chips := 0 },
    opponentState :=
      { id := "", hand := [], score := 0, hideFirstCard := false, isStanding := false,
        isBusted := false },
    dealerState := { hand := [], score := none, hideSecondCard := false },
    currentTurn := "",
    message := "",
    gameOver := false,
    gameOverMessage := "",
    gameOverType := "" }

/-- The projection of `wGameA` for `pOne`. -/
def wViewA : GameView := (getGameStateForPlayer wGameA pOne).getD junkView

/-- Witness for C4 at the concrete session `wGameA`. -/
theorem c4_projection_masking_witness :
    wGameA.gameOver = false ∧ getGameStateForPlayer wGameA pOne = some wViewA ∧
      ∃ d0, wGameA.dealer.hand.get? 0 = some d0 ∧
        wViewA.dealerState.hand = [d0, { rank := "?", suit := "?" }] ∧
        wViewA.dealerState.score = getCardValue d0 0 ∧
        ∀ (tail tail' : List Card) (s s' : Nat) (b : Bool),
          getGameStateForPlayer
            { wGameA with dealer := { hand := d0 :: tail, score := s, isBusted := b } } pOne =
          getGameStateForPlayer
            { wGameA with dealer := { hand := d0 :: tail', score := s', isBusted := b } } pOne :=
  ⟨rfl, rfl, c4_projection_masking wGameA pOne wViewA rfl rfl⟩

/-! ## C3: the `pvpGameOver` broadcast is NOT the unmasked session -/

/-- A resolved session: dealer holds King-Nine (total 19), round over. -/
def gFinDemo : Game :=
  { wGameA with
      currentTurn := "dealer"
      turnIndex := 2
      gameOver := true
      gameOverMessage := "Round over! undefined loses. undefined loses. "
      gameOverType := "lose" }

/-- The `finalGame` view actually broadcast for `gFinDemo`. -/
def vFinDemo : GameView := (getGameStateForPlayer gFinDemo pOne).getD junkView

/-- C3: evaluated on a resolved session, the single `pvpGameOver`
payload still masks the dealer: the broadcast view holds the placeholder
instead of the real hole card (Nine of Hearts), shows a dealer score of
10 although the true total is 19, and carries `players[0]`'s seat even
though the room's other recipient is `pTwo`. -/
theorem c3_final_broadcast_masked_eval :
    gFinDemo.gameOver = true ∧
    pvpGameOverPayload gFinDemo =
      some (gFinDemo.gameOverMessage, gFinDemo.gameOverType, vFinDemo) ∧
    vFinDemo.dealerState.hand =
      [{ rank := "K", suit := "Spades" }, { rank := "?", suit := "?" }] ∧
    vFinDemo.dealerState.score = some 10 ∧
    calculateHandTotal gFinDemo.dealer.hand = some 19 ∧
    gFinDemo.dealer.hand.get? 1 = some { rank := "9", suit := "Hearts" } ∧
    ({ rank := "9", suit := "Hearts" } : Card) ∉ vFinDemo.dealerState.hand ∧
    vFinDemo.playerState.id = pOne ∧ pTwo ∈ gFinDemo.players := by
  decide

/-! ## C6 and C10: outcome determination -/

/-- The four per-player outcomes of `determineGameOutcome`'s branch
structure. -/
inductive Outcome where
  | busted
  | wins
  | loses
  | push
deriving DecidableEq, Repr

/-- The branch `determineGameOutcome` selects for one player against the
dealer, with the source's exact precedence. -/
def outcomeFor (p : PlayerState) (d : DealerState) : Outcome :=
  if p.isBusted then Outcome.busted
  else if d.isBusted || p.score > d.score then Outcome.wins
  else if p.score < d.score then Outcome.loses
  else Outcome.push

/-- The message fragment `determineGameOutcome` appends for one player
(the player "identifier" is the stringified absent `id` property). -/
def msgFor : Outcome → String
  | Outcome.busted => "undefined busted. "
  | Outcome.wins => "undefined wins! "
  | Outcome.loses => "undefined loses. "
  | Outcome.push => "undefined pushes. "

/-- How one player's branch rewrites the shared `type` flag. -/
def tyAfter (o : Outcome) (t : String) : String :=
  match o with
  | Outcome.wins => "win"
  | Outcome.loses => "lose"
  | _ => t

/-- `determineGameOutcome` in closed form: the message is the two
players' fragments in order, and the shared type is the last-writer
rewrite of `'info'`. -/
lemma determineGameOutcome_eq (g : Game) (p1id p2id : String) (st1 st2 : PlayerState)
    (h0 : g.players.get? 0 = some p1id) (h1 : g.players.get? 1 = some p2id)
    (hs1 : g.pstates p1id = some st1) (hs2 : g.pstates p2id = some st2) :
    determineGameOutcome g = some
      { g with
          gameOver := true
          gameOverMessage := "Round over! " ++ msgFor (outcomeFor st1 g.dealer) ++
            msgFor (outcomeFor st2 g.dealer)
          gameOverType := tyAfter (outcomeFor st2 g.dealer)
            (tyAfter (outcomeFor st1 g.dealer) "info") } := by
  unfold determineGameOutcome outcomeFor msgFor tyAfter
  rw [h0, h1]
  simp only [Option.bind_eq_bind, Option.some_bind]
  rw [hs1]
  simp only [Option.some_bind]
  rw [hs2]
  simp only [Option.some_bind, Option.pure_def]
  split_ifs <;> rfl

/-- Player A of the outcome scenario: total 20, not busted. -/
def scenA : PlayerState :=
  { hand := [], score := 20, isStanding := true, isBusted := false, chips := 1000 }

/-- Player B of the outcome scenario: busted at 22. -/
def scenB : PlayerState :=
  { hand := [], score := 22, isStanding := false, isBusted := true, chips := 1000 }

/-- The dealer of the outcome scenario: total 18, not busted. -/
def scenDealer : DealerState := { hand := [], score := 18, isBusted := false }

/-- C6: the round-over message consists of one independently determined
fragment per player; each fragment follows the busted / wins / loses /
push precedence of the claim; and in the concrete scenario (A at 20 not
busted, B busted, dealer at 18 not busted) A wins while B is busted. -/
theorem c6_outcome_precedence (g : Game) (p1id p2id : String) (st1 st2 : PlayerState)
    (g' : Game)
    (h0 : g.players.get? 0 = some p1id) (h1 : g.players.get? 1 = some p2id)
    (hs1 : g.pstates p1id = some st1) (hs2 : g.pstates p2id = some st2)
    (hdet : determineGameOutcome g = some g') :
    g'.gameOverMessage = "Round over! " ++ msgFor (outcomeFor st1 g.dealer) ++
      msgFor (outcomeFor st2 g.dealer) ∧
    (∀ (p : PlayerState) (d : DealerState),
      (p.isBusted = true → outcomeFor p d = Outcome.busted) ∧
      (p.isBusted = false → d.isBusted = true ∨ p.score > d.score →
        outcomeFor p d = Outcome.wins) ∧
      (p.isBusted = false → d.isBusted = false → p.score < d.score →
        outcomeFor p d = Outcome.loses) ∧
      (p.isBusted = false → d.isBusted = false → p.score = d.score →
        outcomeFor p d = Outcome.push)) ∧
    outcomeFor scenA scenDealer = Outcome.wins ∧
    outcomeFor scenB scenDealer = Outcome.busted := by
  rw [determineGameOutcome_eq g p1id p2id st1 st2 h0 h1 hs1 hs2] at hdet
  injection hdet with hdet
  subst hdet
  refine ⟨rfl, ?_, by decide, by decide⟩
  intro p d
  refine ⟨?_, ?_, ?_, ?_⟩
  · intro hb
    simp [outcomeFor, hb]
  · intro hb hw
    rcases hw with hw | hw <;> simp [outcomeFor, hb, hw]
  · intro hb hd hlt
    have hgt : ¬ p.score > d.score := by omega
    simp [outcomeFor, hb, hd, hgt, hlt]
  · intro hb hd heq
    have hgt : ¬ p.score > d.score := by omega
    have hlt : ¬ p.score < d.score := by omega
    simp [outcomeFor, hb, hd, hgt, hlt]

/-- The witness session for outcome determination: A at 20, B busted,
dealer at 18. -/
def gOutW : Game :=
  { wGameA with
      pstates := fun id => if id = pTwo then some scenB else if id = pOne then some scenA else none
      dealer := scenDealer
      currentTurn := "dealer"
      turnIndex := 2 }

/-- The resolved session produced from `gOutW`. -/
def gOutWRes : Game := (determineGameOutcome gOutW).getD wGameA

/-- Witness for C6 at the scenario session. -/
theorem c6_outcome_precedence_witness :
    determineGameOutcome gOutW = some gOutWRes ∧
    gOutWRes.gameOverMessage = "Round over! " ++ msgFor (outcomeFor scenA gOutW.dealer) ++
      msgFor (outcomeFor scenB gOutW.dealer) ∧
    outcomeFor scenA scenDealer = Outcome.wins ∧
    outcomeFor scenB scenDealer = Outcome.busted := by
  have h := c6_outcome_precedence gOutW pOne pTwo scenA scenB gOutWRes rfl rfl rfl rfl rfl
  exact ⟨rfl, h.1, h.2.2.1, h.2.2.2⟩

/-- C10: the round-over message interpolates the absent `id` property of
each player state, so it reads `undefined` where an identifier should
be; it is a function of the two player states and the dealer alone, so
renaming the connection identities leaves it unchanged — the actual
identities never reach the message. -/
theorem c10_undefined_ids (g : Game) (p1id p2id : String) (st1 st2 : PlayerState)
    (g' : Game)
    (h0 : g.players.get? 0 = some p1id) (h1 : g.players.get? 1 = some p2id)
    (hs1 : g.pstates p1id = some st1) (hs2 : g.pstates p2id = some st2)
    (hdet : determineGameOutcome g = some g') :
    g'.gameOverMessage = "Round over! " ++ msgFor (outcomeFor st1 g.dealer) ++
      msgFor (outcomeFor st2 g.dealer) ∧
    (∀ o : Outcome, ∃ rest, msgFor o = "undefined" ++ rest) ∧
    (∀ (x y : String), x ≠ y → ∀ g2',
      determineGameOutcome
        { g with
            players := [x, y]
            pstates := fun id => if id = y then some st2 else if id = x then some st1 else none } =
          some g2' →
      g2'.gameOverMessage = g'.gameOverMessage) := by
  rw [determineGameOutcome_eq g p1id p2id st1 st2 h0 h1 hs1 hs2] at hdet
  injection hdet with hdet
  subst hdet
  refine ⟨rfl, ?_, ?_⟩
  · intro o
    cases o
    · exact ⟨" busted. ", rfl⟩
    · exact ⟨" wins! ", rfl⟩
    · exact ⟨" loses. ", rfl⟩
    · exact ⟨" pushes. ", rfl⟩
  · intro x y hxy g2' hdet2
    have e := determineGameOutcome_eq
      { g with
          players := [x, y]
          pstates := fun id => if id = y then some st2 else if id = x then some st1 else none }
      x y st1 st2 rfl rfl (by simp [hxy]) (by simp)
    rw [e] at hdet2
    injection hdet2 with hdet2
    subst hdet2
    rfl

/-- Witness for C10 at the scenario session: the delivered message is
literally `Round over! undefined wins! undefined busted.`. -/
theorem c10_undefined_ids_witness :
    determineGameOutcome gOutW = some gOutWRes ∧
    gOutWRes.gameOverMessage = "Round over! " ++ msgFor (outcomeFor scenA gOutW.dealer) ++
      msgFor (outcomeFor scenB gOutW.dealer) ∧
    gOutWRes.gameOverMessage = "Round over! undefined wins! undefined busted. " := by
  have h := c10_undefined_ids gOutW pOne pTwo scenA scenB gOutWRes rfl rfl rfl rfl rfl
  exact ⟨rfl, h.1, by decide⟩

/-! ## C9: disconnect forfeiture -/

lemma disconnectScan_not_found (sid : String) :
    ∀ l : List (String × Game), (∀ e ∈ l, sid ∉ e.2.players) →
      disconnectScan l sid = (l, []) := by
  intro l
  induction l with
  | nil => intro _; rfl
  | cons e rest ih =>
    intro h
    obtain ⟨rid, g⟩ := e
    have hg : sid ∉ g.players := h (rid, g) (by simp)
    have hrest := ih (fun e he => h e (by simp [he]))
    simp only [disconnectScan]
    rw [if_neg hg, hrest]

lemma disconnectScan_found (sid rid : String) (g : Game) (post : List (String × Game)) :
    ∀ pre : List (String × Game), (∀ e ∈ pre, sid ∉ e.2.players) → sid ∈ g.players →
      disconnectScan (pre ++ (rid, g) :: post) sid =
        (pre ++ post,
          match g.players.find? (fun id => id ≠ sid) with
          | some remainingPlayerId =>
            [{ target := remainingPlayerId, message := "Opponent disconnected. You win!",
               ty := "win" }]
          | none => []) := by
  intro pre
  induction pre with
  | nil =>
    intro _ hg
    rw [List.nil_append]
    simp only [disconnectScan]
    rw [if_pos hg, List.nil_append]
  | cons e rest ih =>
    intro hpre hg
    obtain ⟨rid', g'⟩ := e
    have hg' : sid ∉ g'.players := hpre (rid', g') (by simp)
    have hrest := ih (fun e he => hpre e (by simp [he])) hg
    rw [List.cons_append]
    simp only [disconnectScan]
    rw [if_neg hg', hrest]
    rfl

lemma find_other (a b sid : String) (_hmem : sid = a ∨ sid = b)
    (hother : (if sid = a then b else a) ≠ sid) :
    [a, b].find? (fun id => id ≠ sid) = some (if sid = a then b else a) := by
  by_cases hsa : sid = a
  · rw [if_pos hsa] at hother ⊢
    simp [List.find?, hsa.symm, hother]
  · rw [if_neg hsa] at hother ⊢
    simp [List.find?, hother]

/-- C9: a disconnect by a participant of an active session delivers
exactly one `pvpGameOver` of type `win` to the remaining participant and
removes that session (and only it) from the store; a disconnect of an
identity that is in no session only erases it from the matchmaking queue
and leaves the store untouched. -/
theorem c9_disconnect_forfeit (s : ServerState) (sid rid a b : String) (g : Game)
    (pre post : List (String × Game))
    (hsplit : s.activeGames = pre ++ (rid, g) :: post)
    (hpre : ∀ e ∈ pre, sid ∉ e.2.players)
    (hplayers : g.players = [a, b])
    (hmem : sid = a ∨ sid = b)
    (hother : (if sid = a then b else a) ≠ sid) :
    disconnect s sid =
      ({ matchmakingQueue := s.matchmakingQueue.erase sid, activeGames := pre ++ post },
        [{ target := if sid = a then b else a,
           message := "Opponent disconnected. You win!", ty := "win" }]) ∧
    (∀ s2 : ServerState, (∀ e ∈ s2.activeGames, sid ∉ e.2.players) →
      disconnect s2 sid =
        ({ matchmakingQueue := s2.matchmakingQueue.erase sid,
           activeGames := s2.activeGames }, [])) := by
  constructor
  · have hg : sid ∈ g.players := by
      rw [hplayers]
      rcases hmem with h | h <;> simp [h]
    have hscan := disconnectScan_found sid rid g post pre hpre hg
    rw [hplayers, find_other a b sid hmem hother] at hscan
    unfold disconnect
    rw [hsplit, hscan]
  · intro s2 h2
    unfold disconnect
    rw [disconnectScan_not_found sid s2.activeGames h2]

/-- The room id of the witness session. -/
def roomW : String := "game-P1-P2"

/-- The witness server state: one active session, empty queue. -/
def srvW : ServerState := { matchmakingQueue := [pTwo], activeGames := [(roomW, wGameA)] }

/-- Witness for C9: `pOne` disconnects from `srvW`; the single emission
goes to `pTwo` with type `win` and the session store empties. -/
theorem c9_disconnect_forfeit_witness :
    srvW.activeGames = [] ++ (roomW, wGameA) :: [] ∧
    wGameA.players = [pOne, pTwo] ∧
    disconnect srvW pOne =
      ({ matchmakingQueue := srvW.matchmakingQueue.erase pOne, activeGames := [] ++ [] },
        [{ target := if pOne = pOne then pTwo else pOne,
           message := "Opponent disconnected. You win!", ty := "win" }]) :=
  ⟨rfl, rfl,
    (c9_disconnect_forfeit srvW pOne roomW pOne pTwo wGameA [] [] rfl
      (by intro e he; cases he) rfl (Or.inl rfl) (by decide)).1⟩

/-! ## C5 and C7: reachable sessions, turn advancement, deck integrity -/

/-- A player entry is exhausted for the round: busted or standing (an
absent entry counts as exhausted; it never arises on the ids used). -/
def playerDone (g : Game) (pid : String) : Bool :=
  match g.pstates pid with
  | some st => st.isStanding || st.isBusted
  | none => true

/-- The source's validity condition for `hit`/`stand`: the actor holds
the turn and is neither standing nor busted. -/
def validAction (g : Game) (pid : String) : Prop :=
  g.currentTurn = pid ∧
    ∃ st, g.pstates pid = some st ∧ st.isStanding = false ∧ st.isBusted = false

/-- The other player of the pair. -/
def otherOf (p1 p2 pid : String) : String := if pid = p1 then p2 else p1

/-- What the claim demands of the state after a turn-yielding action by
`pid`: the turn passes to the other player when that player is still
live, and to the dealer slot exactly when both players are exhausted. -/
def advanceSpec (p1 p2 pid : String) (g' : Game) : Prop :=
  if playerDone g' (otherOf p1 p2 pid) then
    g'.currentTurn = "dealer" ∧ playerDone g' p1 = true ∧ playerDone g' p2 = true
  else g'.currentTurn = otherOf p1 p2 pid

/-- One externally triggered mutation of a session: a `playerAction`
(`hit` or `stand`) by some connection. -/
inductive Step : Game → Game → Prop where
  | hit (g g' : Game) (pid : String) : handleHit g pid = some g' → Step g g'
  | stand (g g' : Game) (pid : String) : handleStand g pid = some g' → Step g g'

/-- Session states reachable from `g0` by player actions. -/
inductive Reach (g0 : Game) : Game → Prop where
  | refl : Reach g0 g0
  | tail {g g' : Game} : Reach g0 g → Step g g' → Reach g0 g'

/-- The state invariant every session created by `initializeGame` for
distinct, non-`'dealer'` ids maintains under player actions. -/
structure Inv (p1 p2 : String) (g : Game) : Prop where
  players_eq : g.players = [p1, p2]
  torder : g.turnOrder = [p1, p2, "dealer"]
  pstate1 : ∃ st, g.pstates p1 = some st
  pstate2 : ∃ st, g.pstates p2 = some st
  others : ∀ x, x ≠ p1 → x ≠ p2 → g.pstates x = none
  tidx_lt : g.turnIndex < 3
  cur_eq : g.turnOrder.get? g.turnIndex = some g.currentTurn
  idx1 : g.turnIndex = 1 → playerDone g p1 = true
  idx2 : g.turnIndex = 2 → playerDone g p1 = true ∧ playerDone g p2 = true

/-- The hand stored under an optional player entry. -/
def handOf : Option PlayerState → List Card
  | some st => st.hand
  | none => []

/-- Every card a session owns: dealer hand, both player hands, remaining
deck. -/
def cardsOf (g : Game) (p1 p2 : String) : List Card :=
  g.dealer.hand ++ handOf (g.pstates p1) ++ handOf (g.pstates p2) ++ g.deck

lemma updPS_same (f : String → Option PlayerState) (id : String) (st : PlayerState) :
    updPS f id st id = some st := by
  unfold updPS
  rw [if_pos rfl]

lemma updPS_other (f : String → Option PlayerState) (id x : String) (st : PlayerState)
    (h : x ≠ id) : updPS f id st x = f x := by
  unfold updPS
  rw [if_neg h]

lemma updPS_updPS (f : String → Option PlayerState) (id : String) (a b : PlayerState) :
    updPS (updPS f id a) id b = updPS f id b := by
  funext x
  unfold updPS
  by_cases h : x = id
  · rw [if_pos h, if_pos h]
  · rw [if_neg h, if_neg h, if_neg h]

lemma popCard_eq {deck deck' : List Card} {c : Card} (h : popCard deck = some (c, deck')) :
    deck = deck' ++ [c] ∧ deck' = deck.take (deck.length - 1) := by
  unfold popCard at h
  cases hl : deck.getLast? with
  | none => rw [hl] at h; cases h
  | some x =>
    rw [hl] at h
    injection h with h
    have hc : x = c := congrArg Prod.fst h
    have hd : deck.dropLast = deck' := congrArg Prod.snd h
    subst hc
    subst hd
    constructor
    · exact (List.dropLast_append_getLast? x (by simp [hl])).symm
    · rw [List.dropLast_eq_take]

lemma set_cons_perm (a : Card) :
    ∀ (l : List Card) (k : Nat) (b : Card), l.get? k = some b →
      (b :: l.set k a).Perm (a :: l) := by
  intro l
  induction l with
  | nil => intro k b hk; cases hk
  | cons x xs ih =>
    intro k b hk
    cases k with
    | zero =>
      injection hk with hk
      subst hk
      exact List.Perm.swap a x xs
    | succ m =>
      exact (List.Perm.swap x b (xs.set m a)).trans
        (((ih m b hk).cons x).trans (List.Perm.swap a x xs))

lemma set_set_perm :
    ∀ (l : List Card) (i j : Nat) (a b : Card), l.get? i = some a → l.get? j = some b →
      ((l.set i b).set j a).Perm l := by
  intro l
  induction l with
  | nil => intro i j a b hi _; cases hi
  | cons x xs ih =>
    intro i j a b hi hj
    cases i with
    | zero =>
      injection hi with hi
      subst hi
      cases j with
      | zero =>
        injection hj with hj
        subst hj
        exact List.Perm.refl _
      | succ m =>
        exact set_cons_perm x xs m b hj
    | succ k =>
      cases j with
      | zero =>
        injection hj with hj
        subst hj
        exact set_cons_perm x xs k a hi
      | succ m =>
        exact ((ih k m a b hi hj).cons x)

lemma swapAt_perm (l : List Card) (i j : Nat) : (swapAt l i j).Perm l := by
  unfold swapAt
  cases hi : l.get? i with
  | none => exact List.Perm.refl l
  | some a =>
    cases hj : l.get? j with
    | none => exact List.Perm.refl l
    | some b => exact set_set_perm l i j a b hi hj

lemma fyLoop_perm (rand : Nat → Nat) : ∀ (n : Nat) (l : List Card), (fyLoop rand n l).Perm l := by
  intro n
  induction n with
  | zero => intro l; exact List.Perm.refl l
  | succ m ih =>
    intro l
    exact (ih _).trans (swapAt_perm l (m + 1) (rand (m + 1) % (m + 2)))

lemma shuffleDeck_perm (deck : List Card) (rand : Nat → Nat) :
    (shuffleDeck deck rand).Perm deck :=
  fyLoop_perm rand (deck.length - 1) deck

lemma dealerLoop_frame :
    ∀ (fuel : Nat) (g g' : Game), dealerLoop fuel g = some g' →
      g'.players = g.players ∧ g'.pstates = g.pstates ∧ g'.turnOrder = g.turnOrder ∧
      g'.turnIndex = g.turnIndex ∧ g'.currentTurn = g.currentTurn ∧
      (g'.dealer.hand ++ g'.deck).Perm (g.dealer.hand ++ g.deck) ∧
      ∃ k, g'.deck = g.deck.take k := by
  intro fuel
  induction fuel with
  | zero => intro g g' h; cases h
  | succ n ih =>
    intro g g' h
    unfold dealerLoop at h
    by_cases hs : g.dealer.score < 17
    · rw [if_pos hs] at h
      simp only [Option.bind_eq_bind, Option.bind_eq_some] at h
      obtain ⟨⟨c, deck'⟩, hpop, ns, hns, h⟩ := h
      obtain ⟨hpl, hps, hto, hti, hct, hperm, k, hk⟩ := ih _ _ h
      obtain ⟨hdeck, htake⟩ := popCard_eq hpop
      refine ⟨hpl, hps, hto, hti, hct, ?_, ?_⟩
      · refine hperm.trans ?_
        show ((g.dealer.hand ++ [c]) ++ deck').Perm (g.dealer.hand ++ g.deck)
        rw [hdeck, List.append_assoc]
        exact List.Perm.append_left g.dealer.hand List.perm_append_comm
      · refine ⟨min k (g.deck.length - 1), ?_⟩
        rw [hk]
        show (deck'.take k) = _
        rw [htake, List.take_take]
    · rw [if_neg hs] at h
      injection h with h
      subst h
      exact ⟨rfl, rfl, rfl, rfl, rfl, List.Perm.refl _, g.deck.length, (List.take_length g.deck).symm⟩

lemma handleDealerTurn_frame {g g' : Game} (h : handleDealerTurn g = some g') :
    g'.players = g.players ∧ g'.pstates = g.pstates ∧ g'.turnOrder = g.turnOrder ∧
    g'.turnIndex = g.turnIndex ∧ g'.currentTurn = g.currentTurn ∧
    (g'.dealer.hand ++ g'.deck).Perm (g.dealer.hand ++ g.deck) ∧
    ∃ k, g'.deck = g.deck.take k := by
  unfold handleDealerTurn at h
  simp only [Option.bind_eq_bind, Option.bind_eq_some] at h
  obtain ⟨s0, hs0, gmid, hloop, hfin⟩ := h
  obtain ⟨hpl, hps, hto, hti, hct, hperm, k, hk⟩ := dealerLoop_frame _ _ _ hloop
  by_cases hb : gmid.dealer.score > 21
  · rw [if_pos hb] at hfin
    injection hfin with hfin
    subst hfin
    exact ⟨hpl, hps, hto, hti, hct, hperm, k, hk⟩
  · rw [if_neg hb] at hfin
    injection hfin with hfin
    subst hfin
    exact ⟨hpl, hps, hto, hti, hct, hperm, k, hk⟩

lemma playerDone_eq (g : Game) (pid : String) (st : PlayerState)
    (h : g.pstates pid = some st) :
    playerDone g pid = (st.isStanding || st.isBusted) := by
  unfold playerDone
  rw [h]

lemma findNextIdx_dealer (g : Game) (fuel idx : Nat)
    (h : g.turnOrder.get? idx = some "dealer") :
    findNextIdx g (fuel + 1) idx = some idx := by
  unfold findNextIdx
  rw [h]
  simp

lemma findNextIdx_live (g : Game) (fuel idx : Nat) (pid : String) (st : PlayerState)
    (hget : g.turnOrder.get? idx = some pid) (hpid : pid ≠ "dealer")
    (hst : g.pstates pid = some st) (hlive : (st.isBusted || st.isStanding) = false) :
    findNextIdx g (fuel + 1) idx = some idx := by
  unfold findNextIdx
  rw [hget]
  simp [hpid, hst, hlive]

lemma findNextIdx_skip (g : Game) (fuel idx : Nat) (pid : String) (st : PlayerState)
    (hget : g.turnOrder.get? idx = some pid) (hpid : pid ≠ "dealer")
    (hst : g.pstates pid = some st) (hdone : (st.isBusted || st.isStanding) = true) :
    findNextIdx g (fuel + 1) idx =
      findNextIdx g fuel ((idx + 1) % g.turnOrder.length) := by
  conv_lhs => unfold findNextIdx
  rw [hget]
  simp [hpid, hst, hdone]

lemma determineGameOutcome_frame {g g' : Game} (h : determineGameOutcome g = some g') :
    g'.players = g.players ∧ g'.pstates = g.pstates ∧ g'.turnOrder = g.turnOrder ∧
    g'.turnIndex = g.turnIndex ∧ g'.currentTurn = g.currentTurn ∧ g'.dealer = g.dealer ∧
    g'.deck = g.deck := by
  have h' := h
  unfold determineGameOutcome at h'
  simp only [Option.bind_eq_bind, Option.bind_eq_some] at h'
  obtain ⟨p1id, h0, p2id, h1, st1, hs1, st2, hs2, -⟩ := h'
  rw [determineGameOutcome_eq g p1id p2id st1 st2 h0 h1 hs1 hs2] at h
  injection h with h
  subst h
  exact ⟨rfl, rfl, rfl, rfl, rfl, rfl, rfl⟩

/-- What `advanceTurn` does from the reachable turn positions: from
index 0 it hands the turn to a live second player, otherwise (second
player exhausted, or starting from index 1 where the first player is
already exhausted) it lands on the dealer slot, runs the dealer, and
resolves the round. -/
lemma advanceTurn_spec (p1 p2 : String) (g g' : Game)
    (hd2 : p2 ≠ "dealer")
    (hto : g.turnOrder = [p1, p2, "dealer"])
    (hs2 : ∃ st, g.pstates p2 = some st)
    (htidx : g.turnIndex = 0 ∨ g.turnIndex = 1)
    (h0 : g.turnIndex = 0 → playerDone g p1 = true)
    (h1a : g.turnIndex = 1 → playerDone g p1 = true)
    (h1b : g.turnIndex = 1 → playerDone g p2 = true)
    (hadv : advanceTurn g = some g') :
    g'.players = g.players ∧ g'.pstates = g.pstates ∧ g'.turnOrder = g.turnOrder ∧
    (g'.dealer.hand ++ g'.deck).Perm (g.dealer.hand ++ g.deck) ∧
    (∃ k, g'.deck = g.deck.take k) ∧
    ((g.turnIndex = 0 ∧ playerDone g p2 = false ∧ g'.turnIndex = 1 ∧ g'.currentTurn = p2) ∨
      (g'.turnIndex = 2 ∧ g'.currentTurn = "dealer" ∧
        playerDone g p1 = true ∧ playerDone g p2 = true)) := by
  obtain ⟨st2, hst2⟩ := hs2
  have hpd2 : playerDone g p2 = (st2.isStanding || st2.isBusted) := playerDone_eq g p2 st2 hst2
  unfold advanceTurn at hadv
  simp only [Option.bind_eq_bind, Option.bind_eq_some] at hadv
  obtain ⟨nidx, hfind, npid, hget, hrest⟩ := hadv
  have hget2 : g.turnOrder.get? 2 = some "dealer" := by rw [hto]; rfl
  -- Establish where the skip loop lands.
  have hland :
      (g.turnIndex = 0 ∧ playerDone g p2 = false ∧ nidx = 1) ∨
        (nidx = 2 ∧ playerDone g p1 = true ∧ playerDone g p2 = true) := by
    rcases htidx with hti | hti
    · have hstart : (g.turnIndex + 1) % g.turnOrder.length = 1 := by rw [hti, hto]; rfl
      rw [hstart] at hfind
      have hget1 : g.turnOrder.get? 1 = some p2 := by rw [hto]; rfl
      by_cases hdone2 : (st2.isBusted || st2.isStanding) = true
      · rw [findNextIdx_skip g _ 1 p2 st2 hget1 hd2 hst2 hdone2] at hfind
        have hmod : (1 + 1) % g.turnOrder.length = 2 := by rw [hto]; rfl
        have hlen2 : g.turnOrder.length = 2 + 1 := by rw [hto]; rfl
        rw [hmod, hlen2, findNextIdx_dealer g 2 2 hget2] at hfind
        injection hfind with hfind
        refine Or.inr ⟨hfind.symm, h0 hti, ?_⟩
        rw [hpd2, Bool.or_comm]
        exact hdone2
      · have hlive : (st2.isBusted || st2.isStanding) = false :=
          Bool.not_eq_true _ ▸ hdone2
        rw [findNextIdx_live g _ 1 p2 st2 hget1 hd2 hst2 hlive] at hfind
        injection hfind with hfind
        refine Or.inl ⟨hti, ?_, hfind.symm⟩
        rw [hpd2, Bool.or_comm]
        exact hlive
    · have hstart : (g.turnIndex + 1) % g.turnOrder.length = 2 := by rw [hti, hto]; rfl
      rw [hstart, findNextIdx_dealer g _ 2 hget2] at hfind
      injection hfind with hfind
      exact Or.inr ⟨hfind.symm, h1a hti, h1b hti⟩
  rcases hland with ⟨hti, hlive2, hnidx⟩ | ⟨hnidx, hdone1, hdone2⟩
  · -- Lands on the live second player.
    subst hnidx
    have hnpid : npid = p2 := by
      rw [hto] at hget
      injection hget with hget
      exact hget.symm
    subst hnpid
    rw [if_neg hd2] at hrest
    injection hrest with hrest
    subst hrest
    exact ⟨rfl, rfl, rfl, List.Perm.refl _, ⟨g.deck.length, (List.take_length g.deck).symm⟩,
      Or.inl ⟨hti, hlive2, rfl, rfl⟩⟩
  · -- Lands on the dealer slot.
    subst hnidx
    have hnpid : npid = "dealer" := by
      rw [hget2] at hget
      injection hget with hget
      exact hget.symm
    subst hnpid
    rw [if_pos rfl] at hrest
    simp only [Option.bind_eq_bind, Option.bind_eq_some] at hrest
    obtain ⟨gd, hdt, hdet⟩ := hrest
    obtain ⟨hpl1, hps1, hto1, hti1, hct1, hperm1, k1, hk1⟩ := handleDealerTurn_frame hdt
    obtain ⟨hpl2, hps2, hto2, hti2, hct2, hdl2, hdk2⟩ := determineGameOutcome_frame hdet
    refine ⟨by rw [hpl2, hpl1], by rw [hps2, hps1], by rw [hto2, hto1], ?_, ?_, ?_⟩
    · rw [hdl2, hdk2]
      exact hperm1
    · exact ⟨k1, by rw [hdk2, hk1]⟩
    · exact Or.inr ⟨by rw [hti2, hti1], by rw [hct2, hct1], hdone1, hdone2⟩

/-- Bool case split for a player state that is neither standing nor
busted. -/
lemma flags_false {st : PlayerState} (h : ¬ (st.isStanding || st.isBusted) = true) :
    st.isStanding = false ∧ st.isBusted = false := by
  cases hS : st.isStanding <;> cases hB : st.isBusted <;> simp_all

/-- `handleStand` either no-ops on an invalid action or marks the actor
standing and advances the turn. -/
lemma handleStand_decomp {g g' : Game} {pid : String} (h : handleStand g pid = some g') :
    (g' = g ∧ (g.currentTurn ≠ pid ∨
        ∃ st, g.pstates pid = some st ∧ (st.isStanding || st.isBusted) = true)) ∨
    ∃ st, g.currentTurn = pid ∧ g.pstates pid = some st ∧
      st.isStanding = false ∧ st.isBusted = false ∧
      advanceTurn { g with
        pstates := updPS g.pstates pid { st with isStanding := true }
        message := pid ++ " stands." } = some g' := by
  unfold handleStand at h
  by_cases hc : g.currentTurn = pid
  · rw [if_neg (not_not_intro hc)] at h
    cases hst : g.pstates pid with
    | none => rw [hst] at h; exact absurd h (by simp)
    | some st =>
      rw [hst] at h
      by_cases hflag : (st.isStanding || st.isBusted) = true
      · simp only [if_pos hflag, Option.some.injEq] at h
        exact Or.inl ⟨h.symm, Or.inr ⟨st, rfl, hflag⟩⟩
      · obtain ⟨hS, hB⟩ := flags_false hflag
        simp only [if_neg hflag] at h
        exact Or.inr ⟨st, hc, rfl, hS, hB, h⟩
  · rw [if_pos hc] at h
    injection h with h
    exact Or.inl ⟨h.symm, Or.inl hc⟩

/-- `handleHit` either no-ops on an invalid action, or deals the deck's
top card into the actor's hand and recomputes the score; a recomputed
score over 21 additionally marks the actor busted and advances the turn. -/
lemma handleHit_decomp {g g' : Game} {pid : String} (h : handleHit g pid = some g') :
    (g' = g ∧ (g.currentTurn ≠ pid ∨
        ∃ st, g.pstates pid = some st ∧ (st.isStanding || st.isBusted) = true)) ∨
    ∃ st c deck' ns, g.currentTurn = pid ∧ g.pstates pid = some st ∧
      st.isStanding = false ∧ st.isBusted = false ∧
      popCard g.deck = some (c, deck') ∧ calculateHandTotal (st.hand ++ [c]) = some ns ∧
      ((¬ ns > 21 ∧ g' = { g with
          deck := deck'
          pstates := updPS g.pstates pid { st with hand := st.hand ++ [c], score := ns }
          message := pid ++ " hits and gets " ++ c.rank ++ " of " ++ c.suit ++ "." }) ∨
        (ns > 21 ∧ advanceTurn { g with
          deck := deck'
          pstates := updPS g.pstates pid
            { st with hand := st.hand ++ [c], score := ns, isBusted := true }
          message := pid ++ " busted!" } = some g')) := by
  unfold handleHit at h
  by_cases hc : g.currentTurn = pid
  · rw [if_neg (not_not_intro hc)] at h
    cases hst : g.pstates pid with
    | none => rw [hst] at h; exact absurd h (by simp)
    | some st =>
      rw [hst] at h
      by_cases hflag : (st.isStanding || st.isBusted) = true
      · simp only [if_pos hflag, Option.some.injEq] at h
        exact Or.inl ⟨h.symm, Or.inr ⟨st, rfl, hflag⟩⟩
      · obtain ⟨hS, hB⟩ := flags_false hflag
        simp only [if_neg hflag, Option.bind_eq_bind, Option.bind_eq_some] at h
        obtain ⟨⟨c, deck'⟩, hpop, ns, hns, h⟩ := h
        by_cases hbust : ns > 21
        · rw [if_pos hbust] at h
          rw [updPS_updPS] at h
          exact Or.inr ⟨st, c, deck', ns, hc, rfl, hS, hB, hpop, hns,
            Or.inr ⟨hbust, h⟩⟩
        · rw [if_neg hbust] at h
          injection h with h
          exact Or.inr ⟨st, c, deck', ns, hc, rfl, hS, hB, hpop, hns,
            Or.inl ⟨hbust, h.symm⟩⟩
  · rw [if_pos hc] at h
    injection h with h
    exact Or.inl ⟨h.symm, Or.inl hc⟩

lemma perm_rearrange (d dk h1 h2 : List Card) :
    (d ++ h1 ++ h2 ++ dk).Perm (h1 ++ h2 ++ (d ++ dk)) := by
  refine Multiset.coe_eq_coe.mp ?_
  simp only [← Multiset.coe_add]
  abel

lemma cardsOf_perm_of_frame {a b : Game} (p1 p2 : String) (hps : a.pstates = b.pstates)
    (hperm : (a.dealer.hand ++ a.deck).Perm (b.dealer.hand ++ b.deck)) :
    (cardsOf a p1 p2).Perm (cardsOf b p1 p2) := by
  unfold cardsOf
  rw [hps]
  refine (perm_rearrange _ _ _ _).trans ?_
  refine List.Perm.trans ?_ (perm_rearrange _ _ _ _).symm
  exact List.Perm.append_left _ hperm

/-- A session freshly built by `initializeGame` satisfies the state
invariant, and its cards are exactly one full deck. -/
lemma initializeGame_spec {p1 p2 : String} {rand : Nat → Nat} {g0 : Game}
    (hne : p1 ≠ p2) (h : initializeGame p1 p2 rand = some g0) :
    Inv p1 p2 g0 ∧ (cardsOf g0 p1 p2).Perm createDeck := by
  unfold initializeGame at h
  simp only [Option.bind_eq_bind, Option.bind_eq_some, Option.pure_def,
    Option.some.injEq] at h
  obtain ⟨⟨c1, d1⟩, h1, ⟨c2, d2⟩, h2, ⟨c3, d3⟩, h3, ⟨c4, d4⟩, h4, ⟨c5, d5⟩, h5,
    ⟨c6, d6⟩, h6, s1, hsc1, s2, hsc2, sd, hscd, hg⟩ := h
  dsimp only at h2 h3 h4 h5 h6 hg
  subst hg
  constructor
  · refine ⟨rfl, rfl, ?_, ?_, ?_, by simp, rfl, ?_, ?_⟩
    · simp [hne]
    · simp
    · intro x hx1 hx2
      simp [hx1, hx2]
    · intro habs
      simp at habs
    · intro habs
      simp at habs
  · have e1 := (popCard_eq h1).1
    have e2 := (popCard_eq h2).1
    have e3 := (popCard_eq h3).1
    have e4 := (popCard_eq h4).1
    have e5 := (popCard_eq h5).1
    have e6 := (popCard_eq h6).1
    refine List.Perm.trans ?_ (shuffleDeck_perm createDeck rand)
    rw [e1, e2, e3, e4, e5, e6]
    have hred : cardsOf
        { deck := d6
          players := [p1, p2]
          pstates := fun id =>
            if id = p2 then
              some { hand := [c2, c5], score := s2, isStanding := false,
                     isBusted := false, chips := 1000 }
            else if id = p1 then
              some { hand := [c1, c4], score := s1, isStanding := false,
                     isBusted := false, chips := 1000 }
            else none
          dealer := { hand := [c3, c6], score := sd, isBusted := false }
          currentTurn := p1
          turnOrder := [p1, p2, "dealer"]
          turnIndex := 0
          message := "Game started! Player 1\x27s turn."
          gameOver := false
          gameOverMessage := ""
          gameOverType := "" } p1 p2 =
        [c3] ++ [c6] ++ ([c1] ++ [c4]) ++ ([c2] ++ [c5]) ++ d6 := by
      unfold cardsOf handOf
      simp [hne]
    rw [hred]
    refine Multiset.coe_eq_coe.mp ?_
    simp only [← Multiset.coe_add]
    abel

lemma playerDone_congr {a b : Game} (h : a.pstates = b.pstates) (x : String) :
    playerDone a x = playerDone b x := by
  unfold playerDone
  rw [h]

lemma pid_mem {p1 p2 : String} {g : Game} (hinv : Inv p1 p2 g) {pid : String}
    {st : PlayerState} (hst : g.pstates pid = some st) : pid = p1 ∨ pid = p2 := by
  by_contra hcon
  push_neg at hcon
  rw [hinv.others pid hcon.1 hcon.2] at hst
  cases hst

lemma turn_pos {p1 p2 : String} {g : Game} (hd1 : p1 ≠ "dealer") (hd2 : p2 ≠ "dealer")
    (hinv : Inv p1 p2 g) {pid : String} (hcur : g.currentTurn = pid)
    (hmem : pid = p1 ∨ pid = p2) :
    (pid = p1 ∧ g.turnIndex = 0) ∨ (pid = p2 ∧ g.turnIndex = 1) := by
  have hcur' := hinv.cur_eq
  rw [hinv.torder, hcur] at hcur'
  have h3 : g.turnIndex = 0 ∨ g.turnIndex = 1 ∨ g.turnIndex = 2 := by
    have := hinv.tidx_lt
    omega
  rcases h3 with h | h | h <;> rw [h] at hcur'
  · injection hcur' with e
    exact Or.inl ⟨e.symm, h⟩
  · injection hcur' with e
    exact Or.inr ⟨e.symm, h⟩
  · injection hcur' with e
    rcases hmem with hm | hm <;> subst hm
    · exact absurd e.symm hd1
    · exact absurd e.symm hd2

/-- After the acting player has been marked exhausted, `advanceTurn`
re-establishes the invariant, preserves the session's cards, only trims
the deck, and lands exactly where the turn-order claim says. -/
lemma advance_after_mark {p1 p2 pid : String} {g M g' : Game} {stM : PlayerState}
    (hne : p1 ≠ p2) (hd2 : p2 ≠ "dealer")
    (hinv : Inv p1 p2 g)
    (hpos : (pid = p1 ∧ g.turnIndex = 0) ∨ (pid = p2 ∧ g.turnIndex = 1))
    (hadv : advanceTurn M = some g')
    (hMps : M.pstates = updPS g.pstates pid stM)
    (hMdone : (stM.isStanding || stM.isBusted) = true)
    (hMto : M.turnOrder = [p1, p2, "dealer"])
    (hMti : M.turnIndex = g.turnIndex)
    (hMpl : M.players = g.players) :
    Inv p1 p2 g' ∧ (cardsOf g' p1 p2).Perm (cardsOf M p1 p2) ∧
      (∃ k, g'.deck = M.deck.take k) ∧ advanceSpec p1 p2 pid g' ∧
      g'.pstates = M.pstates := by
  have hMpid : M.pstates pid = some stM := by
    rw [hMps]
    exact updPS_same g.pstates pid stM
  have hdoneMpid : playerDone M pid = true := by
    rw [playerDone_eq M pid stM hMpid]
    exact hMdone
  have hdoneM_other : ∀ x, x ≠ pid → playerDone M x = playerDone g x := by
    intro x hx
    unfold playerDone
    rw [hMps, updPS_other g.pstates pid x stM hx]
  have hs2 : ∃ st, M.pstates p2 = some st := by
    rcases hpos with ⟨hp, _⟩ | ⟨hp, _⟩
    · subst hp
      obtain ⟨st2, hst2⟩ := hinv.pstate2
      exact ⟨st2, by rw [hMps, updPS_other g.pstates pid p2 stM (Ne.symm hne)]; exact hst2⟩
    · subst hp
      exact ⟨stM, hMpid⟩
  have htidx : M.turnIndex = 0 ∨ M.turnIndex = 1 := by
    rw [hMti]
    rcases hpos with ⟨_, h⟩ | ⟨_, h⟩
    · exact Or.inl h
    · exact Or.inr h
  have h0 : M.turnIndex = 0 → playerDone M p1 = true := by
    intro hz
    rcases hpos with ⟨hp, _⟩ | ⟨_, hti⟩
    · subst hp
      exact hdoneMpid
    · rw [hMti] at hz
      omega
  have h1a : M.turnIndex = 1 → playerDone M p1 = true := by
    intro hz
    rcases hpos with ⟨_, hti⟩ | ⟨hp, hti⟩
    · rw [hMti] at hz
      omega
    · subst hp
      rw [hdoneM_other p1 hne]
      exact hinv.idx1 (by rw [← hMti]; exact hz)
  have h1b : M.turnIndex = 1 → playerDone M p2 = true := by
    intro hz
    rcases hpos with ⟨_, hti⟩ | ⟨hp, _⟩
    · rw [hMti] at hz
      omega
    · subst hp
      exact hdoneMpid
  obtain ⟨hpl, hps, hto, hperm, htake, hdisj⟩ :=
    advanceTurn_spec p1 p2 M g' hd2 hMto hs2 htidx h0 h1a h1b hadv
  have hto' : g'.turnOrder = [p1, p2, "dealer"] := by rw [hto, hMto]
  have hdone_g' : ∀ x, playerDone g' x = playerDone M x := playerDone_congr hps
  refine ⟨?_, cardsOf_perm_of_frame p1 p2 hps hperm, htake, ?_, hps⟩
  · refine ⟨by rw [hpl, hMpl]; exact hinv.players_eq, hto', ?_, ?_, ?_, ?_, ?_, ?_, ?_⟩
    · rw [hps, hMps]
      by_cases hx : p1 = pid
      · exact ⟨stM, by rw [hx]; exact updPS_same g.pstates pid stM⟩
      · obtain ⟨st1, hst1⟩ := hinv.pstate1
        exact ⟨st1, by rw [updPS_other g.pstates pid p1 stM hx]; exact hst1⟩
    · rw [hps, hMps]
      by_cases hx : p2 = pid
      · exact ⟨stM, by rw [hx]; exact updPS_same g.pstates pid stM⟩
      · obtain ⟨st2, hst2⟩ := hinv.pstate2
        exact ⟨st2, by rw [updPS_other g.pstates pid p2 stM hx]; exact hst2⟩
    · intro x hx1 hx2
      have hxpid : x ≠ pid := by
        rcases hpos with ⟨hp, _⟩ | ⟨hp, _⟩ <;> rw [hp] <;> assumption
      rw [hps, hMps, updPS_other g.pstates pid x stM hxpid]
      exact hinv.others x hx1 hx2
    · rcases hdisj with ⟨_, _, hti', _⟩ | ⟨hti', _⟩ <;> omega
    · rcases hdisj with ⟨_, _, hti', hct'⟩ | ⟨hti', hct', _⟩
      · rw [hto', hti', hct']
        rfl
      · rw [hto', hti', hct']
        rfl
    · intro hone
      rcases hdisj with ⟨hMz, _, _, _⟩ | ⟨hti', _⟩
      · have hp1 : pid = p1 := by
          rcases hpos with ⟨hp, _⟩ | ⟨_, hti⟩
          · exact hp
          · rw [hMti] at hMz
            omega
        rw [← hp1, hdone_g' pid]
        exact hdoneMpid
      · omega
    · intro htwo
      rcases hdisj with ⟨_, _, hti', _⟩ | ⟨_, _, hd1', hd2'⟩
      · omega
      · rw [hdone_g' p1, hdone_g' p2]
        exact ⟨hd1', hd2'⟩
  · unfold advanceSpec
    rcases hdisj with ⟨hMz, hlive, hti', hct'⟩ | ⟨hti', hct', hdp1, hdp2⟩
    · have hp1 : pid = p1 := by
        rcases hpos with ⟨hp, _⟩ | ⟨_, hti⟩
        · exact hp
        · rw [hMti] at hMz
          omega
      have hoth : otherOf p1 p2 pid = p2 := by
        unfold otherOf
        rw [if_pos hp1]
      have hfalse : playerDone g' p2 = false := by
        rw [hdone_g' p2]
        exact hlive
      rw [hoth, hfalse]
      simp only [Bool.false_eq_true, if_false]
      exact hct'
    · have hoth_done : playerDone g' (otherOf p1 p2 pid) = true := by
        unfold otherOf
        by_cases hx : pid = p1
        · rw [if_pos hx, hdone_g' p2]
          exact hdp2
        · rw [if_neg hx, hdone_g' p1]
          exact hdp1
      rw [hoth_done]
      simp only [if_true]
      exact ⟨hct', by rw [hdone_g' p1]; exact hdp1, by rw [hdone_g' p2]; exact hdp2⟩

/-- A valid `stand` after marking: invariant, card conservation, deck
trimming, and the claimed turn hand-off. -/
lemma stand_core {p1 p2 pid : String} {g g' : Game} {st : PlayerState}
    (hne : p1 ≠ p2) (hd1 : p1 ≠ "dealer") (hd2 : p2 ≠ "dealer")
    (hinv : Inv p1 p2 g)
    (hcur : g.currentTurn = pid) (hst : g.pstates pid = some st)
    (hadv : advanceTurn { g with
        pstates := updPS g.pstates pid { st with isStanding := true }
        message := pid ++ " stands." } = some g') :
    Inv p1 p2 g' ∧ (cardsOf g' p1 p2).Perm (cardsOf g p1 p2) ∧
      (∃ k, g'.deck = g.deck.take k) ∧ advanceSpec p1 p2 pid g' := by
  have hmem := pid_mem hinv hst
  have hpos := turn_pos hd1 hd2 hinv hcur hmem
  obtain ⟨hinv', hperm, htake, hspec, -⟩ :=
    advance_after_mark hne hd2 hinv hpos hadv rfl (by simp) hinv.torder rfl rfl
  have hh : ∀ x, handOf (updPS g.pstates pid { st with isStanding := true } x) =
      handOf (g.pstates x) := by
    intro x
    by_cases hx : x = pid
    · subst hx
      rw [updPS_same, hst]
      rfl
    · rw [updPS_other g.pstates pid x _ hx]
  have hcards : cardsOf { g with
      pstates := updPS g.pstates pid { st with isStanding := true }
      message := pid ++ " stands." } p1 p2 = cardsOf g p1 p2 := by
    unfold cardsOf
    dsimp only
    rw [hh p1, hh p2]
  rw [hcards] at hperm
  exact ⟨hinv', hperm, htake, hspec⟩

/-- A valid busting `hit` after marking: invariant, card conservation,
deck trimming, the claimed turn hand-off, and the post-state of the
actor's entry. -/
lemma hitBust_core {p1 p2 pid : String} {g g' : Game} {st : PlayerState}
    {c : Card} {deck' : List Card} {ns : Nat}
    (hne : p1 ≠ p2) (hd1 : p1 ≠ "dealer") (hd2 : p2 ≠ "dealer")
    (hinv : Inv p1 p2 g)
    (hcur : g.currentTurn = pid) (hst : g.pstates pid = some st)
    (hpop : popCard g.deck = some (c, deck'))
    (hadv : advanceTurn { g with
        deck := deck'
        pstates := updPS g.pstates pid
          { st with hand := st.hand ++ [c], score := ns, isBusted := true }
        message := pid ++ " busted!" } = some g') :
    Inv p1 p2 g' ∧ (cardsOf g' p1 p2).Perm (cardsOf g p1 p2) ∧
      (∃ k, g'.deck = g.deck.take k) ∧ advanceSpec p1 p2 pid g' ∧
      g'.pstates pid =
        some { st with hand := st.hand ++ [c], score := ns, isBusted := true } := by
  have hmem := pid_mem hinv hst
  have hpos := turn_pos hd1 hd2 hinv hcur hmem
  obtain ⟨hinv', hperm, htake, hspec, hps⟩ :=
    advance_after_mark hne hd2 hinv hpos hadv rfl (by simp) hinv.torder rfl rfl
  obtain ⟨hgdeck, hdeck'⟩ := popCard_eq hpop
  have hMcards : cardsOf { g with
      deck := deck'
      pstates := updPS g.pstates pid
        { st with hand := st.hand ++ [c], score := ns, isBusted := true }
      message := pid ++ " busted!" } p1 p2 |>.Perm (cardsOf g p1 p2) := by
    unfold cardsOf
    dsimp only
    rcases hmem with hp | hp <;> subst hp
    · rw [updPS_same, updPS_other g.pstates pid p2 _ (Ne.symm hne), hst]
      unfold handOf
      rw [hgdeck]
      refine Multiset.coe_eq_coe.mp ?_
      simp only [← Multiset.coe_add]
      abel
    · rw [updPS_same, updPS_other g.pstates pid p1 _ hne, hst]
      unfold handOf
      rw [hgdeck]
      refine Multiset.coe_eq_coe.mp ?_
      simp only [← Multiset.coe_add]
      abel
  refine ⟨hinv', hperm.trans hMcards, ?_, hspec, ?_⟩
  · obtain ⟨k, hk⟩ := htake
    refine ⟨min k (g.deck.length - 1), ?_⟩
    rw [hk]
    show deck'.take k = _
    rw [hdeck', List.take_take]
  · rw [hps]
    exact updPS_same g.pstates pid _

/-- Updating one player's entry while leaving every turn field alone
preserves the invariant. -/
lemma inv_update_same_turn {p1 p2 pid : String} {g N : Game} {stN : PlayerState}
    (hne : p1 ≠ p2)
    (hinv : Inv p1 p2 g)
    (hmem : pid = p1 ∨ pid = p2)
    (hpos : (pid = p1 ∧ g.turnIndex = 0) ∨ (pid = p2 ∧ g.turnIndex = 1))
    (hNps : N.pstates = updPS g.pstates pid stN)
    (hNto : N.turnOrder = g.turnOrder) (hNti : N.turnIndex = g.turnIndex)
    (hNct : N.currentTurn = g.currentTurn) (hNpl : N.players = g.players) :
    Inv p1 p2 N := by
  refine ⟨by rw [hNpl]; exact hinv.players_eq, by rw [hNto]; exact hinv.torder,
    ?_, ?_, ?_, by rw [hNti]; exact hinv.tidx_lt,
    by rw [hNto, hNti, hNct]; exact hinv.cur_eq, ?_, ?_⟩
  · rw [hNps]
    by_cases hx : p1 = pid
    · exact ⟨stN, by rw [hx]; exact updPS_same g.pstates pid stN⟩
    · obtain ⟨st1, hst1⟩ := hinv.pstate1
      exact ⟨st1, by rw [updPS_other g.pstates pid p1 stN hx]; exact hst1⟩
  · rw [hNps]
    by_cases hx : p2 = pid
    · exact ⟨stN, by rw [hx]; exact updPS_same g.pstates pid stN⟩
    · obtain ⟨st2, hst2⟩ := hinv.pstate2
      exact ⟨st2, by rw [updPS_other g.pstates pid p2 stN hx]; exact hst2⟩
  · intro x hx1 hx2
    have hxpid : x ≠ pid := by
      rcases hmem with hp | hp <;> rw [hp] <;> assumption
    rw [hNps, updPS_other g.pstates pid x stN hxpid]
    exact hinv.others x hx1 hx2
  · intro h1
    rw [hNti] at h1
    rcases hpos with ⟨hp, hti⟩ | ⟨hp, hti⟩
    · omega
    · have hx : p1 ≠ pid := by rw [hp]; exact hne
      have heq : playerDone N p1 = playerDone g p1 := by
        unfold playerDone
        rw [hNps, updPS_other g.pstates pid p1 stN hx]
      rw [heq]
      exact hinv.idx1 h1
  · intro h2
    rw [hNti] at h2
    rcases hpos with ⟨hp, hti⟩ | ⟨hp, hti⟩ <;> omega

/-- Dealing the deck's top card into one player's hand conserves the
session's cards. -/
lemma cards_after_deal {p1 p2 pid : String} {g N : Game} {st stN : PlayerState}
    {c : Card} {deck' : List Card}
    (hne : p1 ≠ p2) (hmem : pid = p1 ∨ pid = p2)
    (hst : g.pstates pid = some st)
    (hhand : stN.hand = st.hand ++ [c])
    (hgdeck : g.deck = deck' ++ [c])
    (hNps : N.pstates = updPS g.pstates pid stN)
    (hNdeck : N.deck = deck') (hNdl : N.dealer = g.dealer) :
    (cardsOf N p1 p2).Perm (cardsOf g p1 p2) := by
  unfold cardsOf
  rw [hNps, hNdeck, hNdl, hgdeck]
  rcases hmem with hp | hp <;> subst hp
  · rw [updPS_same, updPS_other g.pstates pid p2 stN (Ne.symm hne), hst]
    simp only [handOf]
    rw [hhand]
    refine Multiset.coe_eq_coe.mp ?_
    simp only [← Multiset.coe_add]
    abel
  · rw [updPS_same, updPS_other g.pstates pid p1 stN hne, hst]
    simp only [handOf]
    rw [hhand]
    refine Multiset.coe_eq_coe.mp ?_
    simp only [← Multiset.coe_add]
    abel

/-- One player action preserves the invariant, permutes no card in or
out of the session, and only trims the deck. -/
lemma step_preserve {p1 p2 : String} {g g' : Game}
    (hne : p1 ≠ p2) (hd1 : p1 ≠ "dealer") (hd2 : p2 ≠ "dealer")
    (hinv : Inv p1 p2 g) (hstep : Step g g') :
    Inv p1 p2 g' ∧ (cardsOf g' p1 p2).Perm (cardsOf g p1 p2) ∧
      ∃ k, g'.deck = g.deck.take k := by
  have hrefl : ∃ k, g.deck = g.deck.take k :=
    ⟨g.deck.length, (List.take_length g.deck).symm⟩
  cases hstep with
  | hit pid hh =>
    rcases handleHit_decomp hh with ⟨hEq, -⟩ |
      ⟨st, c, deck', ns, hcur, hst, hS, hB, hpop, hns, hbr⟩
    · subst hEq
      exact ⟨hinv, List.Perm.refl _, hrefl⟩
    · have hmem := pid_mem hinv hst
      have hpos := turn_pos hd1 hd2 hinv hcur hmem
      rcases hbr with ⟨hle, hEq⟩ | ⟨hgt, hadv⟩
      · subst hEq
        obtain ⟨hgdeck, hdeck'⟩ := popCard_eq hpop
        exact ⟨inv_update_same_turn hne hinv hmem hpos rfl rfl rfl rfl rfl,
          cards_after_deal hne hmem hst rfl hgdeck rfl rfl rfl,
          ⟨g.deck.length - 1, hdeck'⟩⟩
      · obtain ⟨hinv', hperm, htake, -, -⟩ :=
          hitBust_core hne hd1 hd2 hinv hcur hst hpop hadv
        exact ⟨hinv', hperm, htake⟩
  | stand pid hh =>
    rcases handleStand_decomp hh with ⟨hEq, -⟩ | ⟨st, hcur, hst, hS, hB, hadv⟩
    · subst hEq
      exact ⟨hinv, List.Perm.refl _, hrefl⟩
    · obtain ⟨hinv', hperm, htake, -⟩ := stand_core hne hd1 hd2 hinv hcur hst hadv
      exact ⟨hinv', hperm, htake⟩

/-- The invariant and full-deck permutation hold in every reachable
state. -/
lemma reach_spec {p1 p2 : String} {g0 g : Game}
    (hne : p1 ≠ p2) (hd1 : p1 ≠ "dealer") (hd2 : p2 ≠ "dealer")
    (hinv0 : Inv p1 p2 g0) (hperm0 : (cardsOf g0 p1 p2).Perm createDeck)
    (hre : Reach g0 g) :
    Inv p1 p2 g ∧ (cardsOf g p1 p2).Perm createDeck := by
  induction hre with
  | refl => exact ⟨hinv0, hperm0⟩
  | tail hr hs ih =>
    obtain ⟨hinv, hperm⟩ := ih
    obtain ⟨hinv', hperm', -⟩ := step_preserve hne hd1 hd2 hinv hs
    exact ⟨hinv', hperm'.trans hperm⟩

lemma valid_not_noop {g : Game} {pid : String} (hval : validAction g pid)
    (hbad : g.currentTurn ≠ pid ∨
      ∃ st, g.pstates pid = some st ∧ (st.isStanding || st.isBusted) = true) : False := by
  obtain ⟨hcur, stv, hstv, hvS, hvB⟩ := hval
  rcases hbad with hbad | ⟨stx, hstx, hflag⟩
  · exact hbad hcur
  · rw [hstv] at hstx
    injection hstx with e
    rw [← e] at hflag
    simp [hvS, hvB] at hflag

/-- C5: in every reachable session state, a valid hit whose recomputed
total stays at or under 21 leaves `currentTurn` (and `turnIndex`) on the
actor; a valid stand or a busting hit hands the turn to the other player
when that player is still live, and to the dealer slot exactly when both
players are standing or busted. -/
theorem c5_turn_advancement (p1 p2 : String) (rand : Nat → Nat) (g0 g : Game)
    (hne : p1 ≠ p2) (hd1 : p1 ≠ "dealer") (hd2 : p2 ≠ "dealer")
    (hinit : initializeGame p1 p2 rand = some g0) (hre : Reach g0 g) :
    ∀ (pid : String) (g' : Game),
      (handleHit g pid = some g' → validAction g pid →
        ∀ st', g'.pstates pid = some st' →
          (st'.score ≤ 21 →
            g'.currentTurn = g.currentTurn ∧ g'.currentTurn = pid ∧
              g'.turnIndex = g.turnIndex) ∧
          (st'.score > 21 → advanceSpec p1 p2 pid g')) ∧
      (handleStand g pid = some g' → validAction g pid → advanceSpec p1 p2 pid g') := by
  obtain ⟨hinv0, hperm0⟩ := initializeGame_spec hne hinit
  obtain ⟨hinv, -⟩ := reach_spec hne hd1 hd2 hinv0 hperm0 hre
  intro pid g'
  constructor
  · intro hh hval st' hst'
    rcases handleHit_decomp hh with ⟨hEq, hbad⟩ |
      ⟨st, c, deck', ns, hcur, hst, hS, hB, hpop, hns, hbr⟩
    · exact absurd (valid_not_noop hval hbad) (fun h => h)
    · rcases hbr with ⟨hle, hEq⟩ | ⟨hgt, hadv⟩
      · subst hEq
        have h2 : updPS g.pstates pid
            { st with hand := st.hand ++ [c], score := ns } pid = some st' := hst'
        rw [updPS_same] at h2
        injection h2 with h2
        constructor
        · intro _
          exact ⟨rfl, hcur, rfl⟩
        · intro hsc
          rw [← h2] at hsc
          exact absurd hsc (by simp; omega)
      · obtain ⟨-, -, -, hspec, hpid'⟩ :=
          hitBust_core hne hd1 hd2 hinv hcur hst hpop hadv
        rw [hst'] at hpid'
        injection hpid' with hpid'
        constructor
        · intro hsc
          rw [hpid'] at hsc
          exact absurd hsc (by simp; omega)
        · intro _
          exact hspec
  · intro hh hval
    rcases handleStand_decomp hh with ⟨hEq, hbad⟩ | ⟨st, hcur, hst, hS, hB, hadv⟩
    · exact absurd (valid_not_noop hval hbad) (fun h => h)
    · obtain ⟨-, -, -, hspec⟩ := stand_core hne hd1 hd2 hinv hcur hst hadv
      exact hspec

/-- C7: immediately after the initial deal the dealer's hand, both
players' hands and the remaining deck together are exactly one standard
52-card deck with no duplicates; this persists through every reachable
state, and each action only removes cards from the end of the deck. -/
theorem c7_deck_integrity (p1 p2 : String) (rand : Nat → Nat) (g0 : Game)
    (hne : p1 ≠ p2) (hd1 : p1 ≠ "dealer") (hd2 : p2 ≠ "dealer")
    (hinit : initializeGame p1 p2 rand = some g0) :
    (cardsOf g0 p1 p2).Perm createDeck ∧ createDeck.Nodup ∧ (cardsOf g0 p1 p2).Nodup ∧
    (∀ g, Reach g0 g → (cardsOf g p1 p2).Perm createDeck ∧ (cardsOf g p1 p2).Nodup) ∧
    (∀ g g', Reach g0 g → Step g g' →
      (cardsOf g' p1 p2).Perm (cardsOf g p1 p2) ∧
      g'.deck.length ≤ g.deck.length ∧ ∃ k, g'.deck = g.deck.take k) := by
  obtain ⟨hinv0, hperm0⟩ := initializeGame_spec hne hinit
  have hnodup : createDeck.Nodup := by decide
  refine ⟨hperm0, hnodup, hperm0.nodup_iff.mpr hnodup, ?_, ?_⟩
  · intro g hre
    obtain ⟨-, hperm⟩ := reach_spec hne hd1 hd2 hinv0 hperm0 hre
    exact ⟨hperm, hperm.nodup_iff.mpr hnodup⟩
  · intro g g' hre hs
    obtain ⟨hinv, -⟩ := reach_spec hne hd1 hd2 hinv0 hperm0 hre
    obtain ⟨-, hperm', k, hk⟩ := step_preserve hne hd1 hd2 hinv hs
    refine ⟨hperm', ?_, ⟨k, hk⟩⟩
    rw [hk]
    simp only [List.length_take]
    omega

/-- The trivially constant random source used for witness sessions. -/
def zeroRand : Nat → Nat := fun _ => 0

/-- A junk session used only to totalise concrete computations. -/
def emptyGame : Game :=
  { deck := [], players := [], pstates := fun _ => none,
    dealer := { hand := [], score := 0, isBusted := false },
    currentTurn := "", turnOrder := [], turnIndex := 0, message := "",
    gameOver := false, gameOverMessage := "", gameOverType := "" }

/-- The concrete session dealt for `pOne` and `pTwo` with `zeroRand`. -/
def demoG0 : Game := (initializeGame pOne pTwo zeroRand).getD emptyGame

/-- `demoG0`'s state for `pOne`. -/
def demoSt : PlayerState :=
  (demoG0.pstates pOne).getD
    { hand := [], score := 0, isStanding := false, isBusted := false, chips := 0 }

/-- `demoG0` after `pOne` stands. -/
def demoG1 : Game := (handleStand demoG0 pOne).getD emptyGame

/-- Witness for C5: in the freshly dealt session, `pOne` validly stands
and the turn hand-off matches the claim. -/
theorem c5_turn_advancement_witness :
    initializeGame pOne pTwo zeroRand = some demoG0 ∧
    validAction demoG0 pOne ∧
    handleStand demoG0 pOne = some demoG1 ∧
    advanceSpec pOne pTwo pOne demoG1 := by
  have hval : validAction demoG0 pOne := ⟨rfl, demoSt, rfl, rfl, rfl⟩
  refine ⟨rfl, hval, rfl, ?_⟩
  exact (c5_turn_advancement pOne pTwo zeroRand demoG0 demoG0 (by decide) (by decide)
    (by decide) rfl Reach.refl pOne demoG1).2 rfl hval

/-- Witness for C7 at the freshly dealt concrete session. -/
theorem c7_deck_integrity_witness :
    pOne ≠ pTwo ∧ initializeGame pOne pTwo zeroRand = some demoG0 ∧
      (cardsOf demoG0 pOne pTwo).Perm createDeck ∧ (cardsOf demoG0 pOne pTwo).Nodup := by
  have h := c7_deck_integrity pOne pTwo zeroRand demoG0 (by decide) (by decide)
    (by decide) rfl
  exact ⟨by decide, rfl, h.1, h.2.2.1⟩

end Blackjack
